import Mathlib

/-!
# Tiles (valhalla, `src/midgard/tiles.cc`)

A shallow embedding of the tiling system of `src/midgard/tiles.cc` and proofs of
properties of its addressing, neighbour topology and region enumerators.

Modelling conventions.

* `float` values are modelled by the rationals they denote (`ℚ`).  Every `float`
  operation that rounds (`+`, `-`, `*`, `/`, the conversion of an integer) is the exact
  operation followed by `f32`, the rounding to the nearest number with 24 significant
  bits, ties to even; comparisons, `floor`, `ceil`, `abs` and the truncating cast to
  `int32_t` are exact.  Each operation rounds on its own (no fused multiply-add).  The
  exponent range is not modelled: overflow, underflow, infinities and NaN are outside
  the model.
* `int32_t` values are modelled by `Int`; signed overflow is undefined behaviour in
  C++ and is outside the model.  Integer `/` and `%` are the truncating `Int.tdiv`
  and `Int.tmod`.  Conversions to and from `uint32_t`, which are defined in C++, are
  the explicit functions `toU32` and `toI32`.
* the loops of `TileList`, `ColorMap` and `bresenham_line` are run with fuel and
  return `none` (or a flag) when the fuel runs out; the theorems that speak of a result
  show that enough fuel gives it.
-/

namespace Valhalla

/-! ## Machine conversions -/

/-- Conversion of an integer to `uint32_t` (reduction modulo `2^32`). -/
def toU32 (x : Int) : Int := x % 4294967296

/-- Conversion of an integer to `int32_t` (two's complement). -/
def toI32 (x : Int) : Int := (x + 2147483648) % 4294967296 - 2147483648

/-- Rounding of a rational to the nearest integer, a tie going to the even
neighbour. -/
def roundHalfEven (y : ℚ) : Int :=
  if y - ⌊y⌋ < 1 / 2 then ⌊y⌋
  else if 1 / 2 < y - ⌊y⌋ then ⌊y⌋ + 1
  else if ⌊y⌋ % 2 = 0 then ⌊y⌋
  else ⌊y⌋ + 1

/-- Rounding of an exact result to `float` (IEEE 754 binary32, round to nearest, ties
to even): the result is the nearest multiple of the unit in the last place of the
binade of `x`, which leaves 24 significant bits. -/
def f32 (x : ℚ) : ℚ :=
  let ulp : ℚ := 2 ^ (Int.log 2 |x| - 23)
  roundHalfEven (x / ulp) * ulp

/-- The cast `static_cast<int32_t>(f)` of a float: truncation toward zero. -/
def truncToInt (q : ℚ) : Int := if 0 ≤ q then ⌊q⌋ else ⌈q⌉

/-! ## Points and boxes -/

/-- A coordinate `coord_t(x, y)`. -/
structure Point2 where
  x : ℚ
  y : ℚ
deriving DecidableEq

/-- An axis-aligned bounding box `AABB2(minx, miny, maxx, maxy)`. -/
structure AABB2 where
  minx : ℚ
  miny : ℚ
  maxx : ℚ
  maxy : ℚ
deriving DecidableEq

/-- Modelled from the spec: `AABB2::Center` is not in this file; the spec calls it the
center of the box.  It is the midpoint, as a `float`. -/
def AABB2.Center (b : AABB2) : Point2 :=
  ⟨f32 ((b.minx + b.maxx) / 2), f32 ((b.miny + b.maxy) / 2)⟩

/-- Conversion of an integer to `unsigned short` (reduction modulo `2^16`). -/
def toU16 (x : Int) : Int := x % 65536

/-- Modelled from the spec: `coord_t::DistanceSquared` is not in this file; the spec
calls it the squared-distance function to another point.  It is computed in
`float`. -/
def Point2.DistanceSquared (a b : Point2) : ℚ :=
  f32 (f32 (f32 (a.x - b.x) * f32 (a.x - b.x)) + f32 (f32 (a.y - b.y) * f32 (a.y - b.y)))

/-- Modelled from the spec: `AABB2::Width` is not in this file; the spec calls it the
width of the box, a `float`. -/
def AABB2.Width (b : AABB2) : ℚ := f32 (b.maxx - b.minx)

/-- Modelled from the spec: `AABB2::Height` is not in this file; the spec calls it the
height of the box, a `float`. -/
def AABB2.Height (b : AABB2) : ℚ := f32 (b.maxy - b.miny)

/-- The `while` loop of `bresenham_line`, with fuel: one unit per iteration.  The
callback `set_pixel` acts on a state of type `σ` and returns whether the pixel is
off the grid.  The result is the state of the callback and whether the function
returned within the fuel. -/
def bresenham_loop {σ : Type} (set_pixel : σ → Int → Int → σ × Bool)
    (x0 y0 x1 y1 sx sy dx dy : ℚ) : Nat → ℚ → ℚ → Bool → σ → σ × Bool
  | 0, x, y, _, st => (st, decide (¬ (⌊x⌋ ≠ ⌊x1⌋ ∨ ⌊y⌋ ≠ ⌊y1⌋)))
  | fuel + 1, x, y, outside, st =>
    if ⌊x⌋ ≠ ⌊x1⌋ ∨ ⌊y⌋ ≠ ⌊y1⌋ then
      let tx := |f32 (f32 (dx * f32 (y - y0)) - f32 (dy * f32 (f32 (x + sx) - x0)))|
      let ty := |f32 (f32 (dx * f32 (f32 (y + sy) - y0)) - f32 (dy * f32 (x - x0)))|
      let x2 := if tx < ty then f32 (x + sx) else x
      let y2 := if tx < ty then y else f32 (y + sy)
      let r := set_pixel st ⌊x2⌋ ⌊y2⌋
      if outside = false ∧ r.2 = true then (r.1, true)
      else bresenham_loop set_pixel x0 y0 x1 y1 sx sy dx dy fuel x2 y2 r.2 r.1
    else (st, true)

/-- Function `bresenham_line`.  The result is the state of the callback and whether
the function returned within `fuel` iterations of its loop. -/
def bresenham_line {σ : Type} (x0 y0 x1 y1 : ℚ) (set_pixel : σ → Int → Int → σ × Bool)
    (fuel : Nat) (st : σ) : σ × Bool :=
  let r := set_pixel st ⌊x0⌋ ⌊y0⌋
  let sx : ℚ := if x0 < x1 then 1 else -1
  let dx := f32 (x1 - x0)
  let x : ℚ := f32 (⌊x0⌋ + 1 / 2)
  let sy : ℚ := if y0 < y1 then 1 else -1
  let dy := f32 (y1 - y0)
  let y : ℚ := f32 (⌊y0⌋ + 1 / 2)
  bresenham_loop set_pixel x0 y0 x1 y1 sx sy dx dy fuel x y r.2 r.1

/-- A callback for `bresenham_line` that never reports a pixel off the grid and
records the pixels it is called with, in the order of the calls. -/
def recordPixel (marked : List (Int × Int)) (x y : Int) : List (Int × Int) × Bool :=
  (marked ++ [(x, y)], false)

/-- Modelled from the spec: `AABB2::Intersects` is not in this file; the spec calls it
the intersects-with-another-box test.  Two boxes intersect when they share a point,
their edges included. -/
def AABB2.Intersects (a b : AABB2) : Bool :=
  decide (a.minx ≤ b.maxx ∧ b.minx ≤ a.maxx ∧ a.miny ≤ b.maxy ∧ b.miny ≤ a.maxy)

/-! ## The tiling system -/

/-- The arguments of the constructor `Tiles(bounds, tilesize, subdivisions)`.  The
members `ncolumns_` and `nrows_` are set once by the constructor from these and are
the functions below. -/
structure Tiles where
  tilebounds : AABB2
  tilesize : ℚ
  nsubdivisions : Int

namespace Tiles

/-- Member `ncolumns_`: `static_cast<int32_t>(ceil((maxx - minx) / tilesize_))`. -/
def ncolumns (g : Tiles) : Int :=
  ⌈f32 (f32 (g.tilebounds.maxx - g.tilebounds.minx) / g.tilesize)⌉

/-- Member `nrows_`: `static_cast<int32_t>(ceil((maxy - miny) / tilesize_))`. -/
def nrows (g : Tiles) : Int :=
  ⌈f32 (f32 (g.tilebounds.maxy - g.tilebounds.miny) / g.tilesize)⌉

/-- Method `Tiles::Row`. -/
def Row (g : Tiles) (y : ℚ) : Int :=
  if y < g.tilebounds.miny ∨ y > g.tilebounds.maxy then -1
  else if y = g.tilebounds.maxy then g.nrows - 1
  else truncToInt (f32 (f32 (y - g.tilebounds.miny) / g.tilesize))

/-- Method `Tiles::Col`. -/
def Col (g : Tiles) (x : ℚ) : Int :=
  if x < g.tilebounds.minx ∨ x > g.tilebounds.maxx then -1
  else if x = g.tilebounds.maxx then g.ncolumns - 1
  else
    let col : ℚ := f32 (f32 (x - g.tilebounds.minx) / g.tilesize)
    if col ≥ 0 then truncToInt col else truncToInt (f32 (col - 1))

/-- Method `Tiles::TileId(const float y, const float x)`. -/
def TileId (g : Tiles) (y x : ℚ) : Int :=
  if y < g.tilebounds.miny ∨ x < g.tilebounds.minx ∨
      y > g.tilebounds.maxy ∨ x > g.tilebounds.maxx then -1
  else g.Row y * g.ncolumns + g.Col x

/-- Method `Tiles::TileId(const coord_t& c)`. -/
def TileIdOf (g : Tiles) (c : Point2) : Int := g.TileId c.y c.x

/-- Method `Tiles::TileId(const int32_t col, const int32_t row)`. -/
def TileIdColRow (g : Tiles) (col row : Int) : Int := row * g.ncolumns + col

/-- Method `Tiles::GetRowColumn`. -/
def GetRowColumn (g : Tiles) (tileid : Int) : Int × Int :=
  (Int.tdiv tileid g.ncolumns, Int.tmod tileid g.ncolumns)

/-- Method `Tiles::Base`; `col` and `row` are converted to `float` for the product. -/
def Base (g : Tiles) (tileid : Int) : Point2 :=
  let row := Int.tdiv tileid g.ncolumns
  let col := tileid - row * g.ncolumns
  ⟨f32 (g.tilebounds.minx + f32 (f32 col * g.tilesize)),
    f32 (g.tilebounds.miny + f32 (f32 row * g.tilesize))⟩

/-- Method `Tiles::TileBounds(const int32_t tileid)`. -/
def TileBounds (g : Tiles) (tileid : Int) : AABB2 :=
  let base := g.Base tileid
  ⟨base.x, base.y, f32 (base.x + g.tilesize), f32 (base.y + g.tilesize)⟩

/-- Method `Tiles::GetRelativeTileId`. -/
def GetRelativeTileId (g : Tiles) (initial_tile delta_rows delta_cols : Int) : Int :=
  initial_tile + delta_rows * g.ncolumns + delta_cols

/-- Method `Tiles::TileOffsets`; the pair is `(delta_rows, delta_cols)`. -/
def TileOffsets (g : Tiles) (initial_tileid newtileid : Int) : Int × Int :=
  let deltaTile := newtileid - initial_tileid
  let delta_rows := Int.tdiv newtileid g.ncolumns - Int.tdiv initial_tileid g.ncolumns
  (delta_rows, deltaTile - delta_rows * g.ncolumns)

/-- Method `Tiles::TileCount`, a `uint32_t`. -/
def TileCount (g : Tiles) : Int :=
  toU32 (g.ncolumns * ⌈f32 (f32 (g.tilebounds.maxy - g.tilebounds.miny) / g.tilesize)⌉)

/-- Method `Tiles::RightNeighbor`. -/
def RightNeighbor (g : Tiles) (tileid : Int) : Int :=
  let row := Int.tdiv tileid g.ncolumns
  let col := tileid - row * g.ncolumns
  if col < g.ncolumns - 1 then tileid + 1 else tileid - g.ncolumns + 1

/-- Method `Tiles::LeftNeighbor`. -/
def LeftNeighbor (g : Tiles) (tileid : Int) : Int :=
  let row := Int.tdiv tileid g.ncolumns
  let col := tileid - row * g.ncolumns
  if col > 0 then tileid - 1 else tileid + g.ncolumns - 1

/-- Method `Tiles::TopNeighbor`; `TileCount() - ncolumns_` is computed in `uint32_t` and cast
back to `int32_t`. -/
def TopNeighbor (g : Tiles) (tileid : Int) : Int :=
  if tileid < toI32 (toU32 (g.TileCount - toU32 g.ncolumns)) then tileid + g.ncolumns
  else tileid

/-- Method `Tiles::BottomNeighbor`. -/
def BottomNeighbor (g : Tiles) (tileid : Int) : Int :=
  if tileid < g.ncolumns then tileid else tileid - g.ncolumns

/-- Method `Tiles::AreNeighbors`; the arguments are `uint32_t`, each neighbour function takes
`int32_t` and its result is compared as `uint32_t`. -/
def AreNeighbors (g : Tiles) (id1 id2 : Int) : Bool :=
  id2 == toU32 (g.TopNeighbor (toI32 id1)) ||
  id2 == toU32 (g.RightNeighbor (toI32 id1)) ||
  id2 == toU32 (g.BottomNeighbor (toI32 id1)) ||
  id2 == toU32 (g.LeftNeighbor (toI32 id1))

/-- One neighbour check of the loop of `Tiles::TileList`: the neighbour is admitted to
the back of the checklist and to the visited set when it has not been visited and its
bounds intersect the box.  The state is `(checklist, visited_tiles)`. -/
def TileList.check (g : Tiles) (intersects : AABB2 → AABB2 → Bool) (bbox : AABB2)
    (s : List Int × List Int) (neighbor : Int) : List Int × List Int :=
  if neighbor ∉ s.2 ∧ intersects bbox (g.TileBounds neighbor) = true then
    (s.1 ++ [neighbor], neighbor :: s.2)
  else s

/-- The `while (!checklist.empty())` loop of `Tiles::TileList`, with fuel: one unit per
iteration. -/
def TileList.loop (g : Tiles) (intersects : AABB2 → AABB2 → Bool) (bbox : AABB2) :
    Nat → List Int → List Int → List Int → Option (List Int)
  | _, [], _, tilelist => some tilelist
  | 0, _ :: _, _, _ => none
  | fuel + 1, tileid :: checklist, visited_tiles, tilelist =>
    let s := TileList.check g intersects bbox (checklist, visited_tiles) (g.LeftNeighbor tileid)
    let s := TileList.check g intersects bbox s (g.RightNeighbor tileid)
    let s := TileList.check g intersects bbox s (g.TopNeighbor tileid)
    let s := TileList.check g intersects bbox s (g.BottomNeighbor tileid)
    TileList.loop g intersects bbox fuel s.1 s.2 (tilelist ++ [tileid])

/-- Method `Tiles::TileList`.  `AABB2::Intersects` is not in this file and is the parameter
`intersects`; the loop gets `fuel` iterations. -/
def TileList (g : Tiles) (intersects : AABB2 → AABB2 → Bool) (fuel : Nat) (bbox : AABB2) :
    Option (List Int) :=
  let tileid := g.TileIdOf bbox.Center
  if tileid = -1 then some []
  else TileList.loop g intersects bbox fuel [tileid] [tileid] []

/-- Lookup in a connectivity map (`connectivity_map.find`), the map being the list of
its entries `(tile id, color)` in iteration order. -/
def cmFind : List (Int × Nat) → Int → Option Nat
  | [], _ => none
  | e :: m, k => if e.1 = k then some e.2 else cmFind m k

/-- Assignment `itr->second = color` to the entry of key `k`. -/
def cmSet : List (Int × Nat) → Int → Nat → List (Int × Nat)
  | [], _, _ => []
  | e :: m, k, color => if e.1 = k then (e.1, color) :: m else e :: cmSet m k color

/-- One neighbour check of the inner loop of `Tiles::ColorMap`: a neighbour that is a
key of the map with color `0` is pushed on the checklist and gets the color.  The
state is `(connectivity_map, checklist)`. -/
def ColorMap.visit (color : Nat) (s : List (Int × Nat) × List Int) (neighbor : Int) :
    List (Int × Nat) × List Int :=
  if cmFind s.1 neighbor = some 0 then (cmSet s.1 neighbor color, s.2 ++ [neighbor])
  else s

/-- The `while (!checklist.empty())` loop of `Tiles::ColorMap`, with fuel: one unit per
iteration.  The checklist holds `uint32_t` values. -/
def ColorMap.bfs (g : Tiles) (color : Nat) :
    Nat → List (Int × Nat) → List Int → Option (List (Int × Nat))
  | _, m, [] => some m
  | 0, _, _ :: _ => none
  | fuel + 1, m, next_tile :: checklist =>
    let s := ColorMap.visit color (m, checklist) (toU32 (g.LeftNeighbor (toI32 next_tile)))
    let s := ColorMap.visit color s (toU32 (g.RightNeighbor (toI32 next_tile)))
    let s := ColorMap.visit color s (toU32 (g.TopNeighbor (toI32 next_tile)))
    let s := ColorMap.visit color s (toU32 (g.BottomNeighbor (toI32 next_tile)))
    ColorMap.bfs g color fuel s.1 s.2

/-- The `for (auto& tile : connectivity_map)` loop of `Tiles::ColorMap` over the keys
still to come, with the current map and the current color. -/
def ColorMap.loop (g : Tiles) : List Int → List (Int × Nat) → Nat → Option (List (Int × Nat))
  | [], m, _ => some m
  | k :: ks, m, color =>
    if (cmFind m k).getD 0 > 0 then ColorMap.loop g ks m color
    else
      match ColorMap.bfs g color (m.length + 1) (cmSet m k color) [k] with
      | none => none
      | some m2 => ColorMap.loop g ks m2 (color + 1)

/-- Method `Tiles::ColorMap`: the map after the call. -/
def ColorMap (g : Tiles) (connectivity_map : List (Int × Nat)) : Option (List (Int × Nat)) :=
  ColorMap.loop g (connectivity_map.map Prod.fst) connectivity_map 1

/-- The point lies within the grid bounds. -/
def InBounds (g : Tiles) (p : Point2) : Prop :=
  g.tilebounds.minx ≤ p.x ∧ p.x ≤ g.tilebounds.maxx ∧
    g.tilebounds.miny ≤ p.y ∧ p.y ≤ g.tilebounds.maxy

/-- Tile `b` is the left, right, top or bottom neighbour of tile `a`. -/
def Adjacent (g : Tiles) (a b : Int) : Prop :=
  b = g.LeftNeighbor a ∨ b = g.RightNeighbor a ∨ b = g.TopNeighbor a ∨
    b = g.BottomNeighbor a

/-- Tiles `a` and `b` are joined by a path of keys in which each consecutive pair is
related by `LeftNeighbor`, `RightNeighbor`, `TopNeighbor` or `BottomNeighbor`. -/
def Connected (g : Tiles) (keys : List Int) (a b : Int) : Prop :=
  Relation.ReflTransGen (fun u v => u ∈ keys ∧ v ∈ keys ∧ g.Adjacent u v) a b

/-- The grid is well formed: positive tile size and bounds of positive width and
height. -/
def WellFormed (g : Tiles) : Prop :=
  0 < g.tilesize ∧ g.tilebounds.minx < g.tilebounds.maxx ∧
    g.tilebounds.miny < g.tilebounds.maxy

/-- The tile id `t` is valid: `0 <= t < TileCount()`. -/
def ValidId (g : Tiles) (t : Int) : Prop := 0 ≤ t ∧ t < g.TileCount

/-- Invariant of the loop of `TileList`: the visited set has no duplicates and holds
numbers of `[0, M)` only, and the checklist is part of it. -/
def TileList.Inv (M : Int) (s : List Int × List Int) : Prop :=
  s.2.Nodup ∧ (∀ v ∈ s.2, 0 ≤ v ∧ v < M) ∧ ∀ q ∈ s.1, q ∈ s.2

/-- Number of entries of color `0`. -/
def cmZeros (m : List (Int × Nat)) : Nat := (m.filter (fun e => e.2 = 0)).length

/-- The neighbours checked by one iteration of the inner loop of `ColorMap`, in the
order of the checks. -/
def ColorMap.neighbors (g : Tiles) (next_tile : Int) : List Int :=
  [toU32 (g.LeftNeighbor (toI32 next_tile)), toU32 (g.RightNeighbor (toI32 next_tile)),
    toU32 (g.TopNeighbor (toI32 next_tile)), toU32 (g.BottomNeighbor (toI32 next_tile))]

/-- Invariant of the inner loop of `ColorMap` that colors the component of the key `s`
with color `c`, starting from the map `m0`: an entry has its color of `m0`, or had
color `0`, is reachable from `s` and has color `c`; the checklist holds keys of color
`c`; the neighbours of a key of color `c` that is not on the checklist do not have
color `0`. -/
structure ColorMap.BInv (g : Tiles) (K : List Int) (m0 : List (Int × Nat)) (s : Int) (c : Nat)
    (m : List (Int × Nat)) (Q : List Int) : Prop where
  keys : m.map Prod.fst = K
  frame : ∀ k, cmFind m k = cmFind m0 k ∨
    (cmFind m0 k = some 0 ∧ cmFind m k = some c ∧ g.Connected K s k)
  queued : ∀ q ∈ Q, cmFind m q = some c
  closed : ∀ a, cmFind m a = some c → a ∉ Q →
    ∀ b ∈ ColorMap.neighbors g a, cmFind m b ≠ some 0
  source : cmFind m s = some c

/-- Invariant of the outer loop of `ColorMap`, `c` being the next color: colors are
below `c`; a key adjacent to a key of nonzero color has that color; keys of one
nonzero color are connected. -/
structure ColorMap.OInv (g : Tiles) (K : List Int) (m : List (Int × Nat)) (c : Nat) : Prop where
  keys : m.map Prod.fst = K
  below : ∀ k x, cmFind m k = some x → x < c
  closed : ∀ a x, cmFind m a = some x → x ≠ 0 → ∀ b, b ∈ K → g.Adjacent a b →
    cmFind m b = some x
  conn : ∀ a b x, cmFind m a = some x → cmFind m b = some x → x ≠ 0 → g.Connected K a b
  pos : c ≠ 0

/-- The tile count fits `int32_t`, so that tile ids are the same number as `int32_t`
and as `uint32_t`. -/
def FitsInt32 (g : Tiles) : Prop := g.ncolumns * g.nrows < 2147483648

/-- Tile `b` is directly above, below, left of or right of tile `a`: same column and
rows differing by one, or same row and columns differing by one. -/
def Cardinal (g : Tiles) (a b : Int) : Prop :=
  ((g.GetRowColumn a).2 = (g.GetRowColumn b).2 ∧
      ((g.GetRowColumn b).1 = (g.GetRowColumn a).1 + 1 ∨
        (g.GetRowColumn b).1 = (g.GetRowColumn a).1 - 1)) ∨
    ((g.GetRowColumn a).1 = (g.GetRowColumn b).1 ∧
      ((g.GetRowColumn b).2 = (g.GetRowColumn a).2 + 1 ∨
        (g.GetRowColumn b).2 = (g.GetRowColumn a).2 - 1))

/-- Tile `b` is diagonal to tile `a`: rows differ by one and columns differ by one. -/
def Diagonal (g : Tiles) (a b : Int) : Prop :=
  ((g.GetRowColumn b).1 = (g.GetRowColumn a).1 + 1 ∨
      (g.GetRowColumn b).1 = (g.GetRowColumn a).1 - 1) ∧
    ((g.GetRowColumn b).2 = (g.GetRowColumn a).2 + 1 ∨
      (g.GetRowColumn b).2 = (g.GetRowColumn a).2 - 1)

/-- Tile `b` is more than one tile away from tile `a`: rows or columns differ by more
than one. -/
def Distant (g : Tiles) (a b : Int) : Prop :=
  (g.GetRowColumn a).1 + 1 < (g.GetRowColumn b).1 ∨
    (g.GetRowColumn b).1 < (g.GetRowColumn a).1 - 1 ∨
    (g.GetRowColumn a).2 + 1 < (g.GetRowColumn b).2 ∨
    (g.GetRowColumn b).2 < (g.GetRowColumn a).2 - 1

/-- Tiles `a` and `b` are the first and the last tile of one row (in either order). -/
def RowEnds (g : Tiles) (a b : Int) : Prop :=
  (g.GetRowColumn a).1 = (g.GetRowColumn b).1 ∧
    (((g.GetRowColumn a).2 = 0 ∧ (g.GetRowColumn b).2 = g.ncolumns - 1) ∨
      ((g.GetRowColumn a).2 = g.ncolumns - 1 ∧ (g.GetRowColumn b).2 = 0))

/-- A grid of one row of three tiles: bounds `(0, 0, 6, 2)`, tile size `2`. -/
def grid3x1 : Tiles := ⟨⟨0, 0, 6, 2⟩, 2, 1⟩

/-- The grid of the worked example: bounds `(0, 0, 4, 4)`, tile size `2`. -/
def grid2x2 : Tiles := ⟨⟨0, 0, 4, 4⟩, 2, 1⟩

/-- The keys `reps` are one key for each color given out so far: the key at position
`i` has color `i + 1`, and the next color is `c`. -/
def ColorMap.Reps (m : List (Int × Nat)) (c : Nat) (reps : List Int) : Prop :=
  reps.length + 1 = c ∧ ∀ i r, reps[i]? = some r → cmFind m r = some (i + 1)

/-- The keys `reps` hold exactly one key of every connected component of the key set:
they are keys, no two of them are connected, and every key is connected to one of
them. -/
def ComponentReps (g : Tiles) (keys : List Int) (reps : List Int) : Prop :=
  (∀ r ∈ reps, r ∈ keys) ∧ reps.Pairwise (fun a b => ¬ g.Connected keys a b) ∧
    ∀ k ∈ keys, ∃ r ∈ reps, g.Connected keys r k

/-- The map `m2` has the keys of `m` and differs from it only at entries of color `0`. -/
def ColorMap.Frame (m m2 : List (Int × Nat)) : Prop :=
  m2.map Prod.fst = m.map Prod.fst ∧ ∀ k, cmFind m2 k = cmFind m k ∨ cmFind m k = some 0

/-- Member `subdivision_size_`: `tilesize_ / nsubdivisions_`. -/
def SubdivisionSize (g : Tiles) : ℚ := f32 (g.tilesize / f32 g.nsubdivisions)

/-- The global subdivision abscissa of `Tiles::Intersect` and `Tiles::ClosestFirst`:
`(x - tilebounds_.minx()) / tilebounds_.Width() * ncolumns_ * nsubdivisions_`, computed
in `float` from left to right. -/
def SubdivisionX (g : Tiles) (x : ℚ) : ℚ :=
  f32 (f32 (f32 (f32 (x - g.tilebounds.minx) / g.tilebounds.Width) * f32 g.ncolumns) *
    f32 g.nsubdivisions)

/-- The global subdivision ordinate of `Tiles::Intersect` and `Tiles::ClosestFirst`:
`(y - tilebounds_.miny()) / tilebounds_.Height() * nrows_ * nsubdivisions_`, computed
in `float` from left to right. -/
def SubdivisionY (g : Tiles) (y : ℚ) : ℚ :=
  f32 (f32 (f32 (f32 (y - g.tilebounds.miny) / g.tilebounds.Height) * f32 g.nrows) *
    f32 g.nsubdivisions)

/-- The state of the producer returned by `Tiles::ClosestFirst`: the captured `x`, `y`
and `seed`, the `queue` (a `std::set` of `(distance, subdivision)` ordered by distance
and then by subdivision, here the list of its elements in that order) and the set
`queued`. -/
structure Producer where
  x : ℚ
  y : ℚ
  seed : Point2
  queue : List (ℚ × Int)
  queued : List Int

/-- Insertion `queue.emplace` into the ordered set: the element goes before the first
element that is not smaller, and is dropped when it is already there. -/
def queueInsert (e : ℚ × Int) : List (ℚ × Int) → List (ℚ × Int)
  | [] => [e]
  | a :: q =>
    if (if e.1 = a.1 then e.2 < a.2 else e.1 < a.1) then e :: a :: q
    else if (if a.1 = e.1 then a.2 < e.2 else a.1 < e.1) then a :: queueInsert e q
    else a :: q

/-- The closure `dist` of `Tiles::ClosestFirst`: squared distance from the seed to the
closest point of subdivision `sub`. -/
def ClosestFirst.dist (g : Tiles) (p : Producer) (sub : Int) : ℚ :=
  let sx0 := Int.tmod sub (g.ncolumns * g.nsubdivisions)
  let sx := if f32 sx0 < p.x then sx0 + 1 else sx0
  let sy0 := Int.tdiv sub (g.nrows * g.nsubdivisions)
  let sy := if f32 sy0 < p.y then sy0 + 1 else sy0
  let cx : ℚ := if f32 sx > p.x ∧ f32 ((sx - 1 : Int) : ℚ) < p.x then p.seed.x
    else f32 (f32 sx * g.SubdivisionSize)
  let cy : ℚ := if f32 sy > p.y ∧ f32 ((sy - 1 : Int) : ℚ) < p.y then p.seed.y
    else f32 (f32 sy * g.SubdivisionSize)
  p.seed.DistanceSquared ⟨cx, cy⟩

/-- One of the four `if(queued.find(n) == queued.cend())` statements of the producer:
a subdivision that was not queued is put in `queued` and in the `queue` with its
distance. -/
def ClosestFirst.push (g : Tiles) (p : Producer) (n : Int) : Producer :=
  if n ∈ p.queued then p
  else { p with queued := n :: p.queued, queue := queueInsert (ClosestFirst.dist g p n, n) p.queue }

/-- One call of the producer returned by `Tiles::ClosestFirst`: the exception, or the
triple `(tile, subdivision, distance)` and the state after the call. -/
def ClosestFirst.call (g : Tiles) (p : Producer) :
    Except String ((Int × Int × ℚ) × Producer) :=
  match p.queue with
  | [] => Except.error "Subdivisions were exhausted"
  | best :: queue =>
    let n := g.nsubdivisions
    let left := Int.tmod (best.2 - 1) n
    let right := Int.tmod (best.2 + 1) n
    let up := if best.2 < n * (n - 1) then best.2 + n else Int.tmod n (best.2 + Int.tdiv n 2)
    let down := if best.2 < n then n * (n - 1) + Int.tmod n (best.2 + Int.tdiv n 2)
      else best.2 - n
    let p1 := ClosestFirst.push g { p with queue := queue } left
    let p2 := ClosestFirst.push g p1 right
    let p3 := ClosestFirst.push g p2 up
    let p4 := ClosestFirst.push g p3 down
    let sx := Int.tmod best.2 n
    let sy := Int.tdiv best.2 n
    let tile_column := Int.tdiv sx n
    let tile_row := Int.tdiv sy n
    let tile := tile_row * g.ncolumns + tile_column
    let subdivision := toU16 (Int.tmod sy n * n + Int.tmod sx n)
    Except.ok ((tile, subdivision, best.1), p4)

/-- Method `Tiles::ClosestFirst`: the producer as it is returned.  The seed's
subdivision is put in `queued`; the `queue` is constructed empty and nothing is
inserted into it. -/
def ClosestFirst (g : Tiles) (seed : Point2) : Producer :=
  let x := g.SubdivisionX seed.x
  let y := g.SubdivisionY seed.y
  let subdivision := truncToInt (f32 (y * f32 g.nsubdivisions)) + truncToInt x
  { x := x, y := y, seed := seed, queue := [], queued := [subdivision] }

/-- The statement `intersection[tile].insert(subdivision)`; the map is the list of its
entries `(tile, set of subdivisions)` in insertion order. -/
def imInsert : List (Int × List Int) → Int → Int → List (Int × List Int)
  | [], tile, subdivision => [(tile, [subdivision])]
  | e :: m, tile, subdivision =>
    if e.1 = tile then (e.1, if subdivision ∈ e.2 then e.2 else e.2 ++ [subdivision]) :: m
    else e :: imInsert m tile subdivision

/-- The closure `set_pixel` of `Tiles::Intersect`. -/
def Intersect.set_pixel (g : Tiles) (intersection : List (Int × List Int)) (x y : Int) :
    List (Int × List Int) × Bool :=
  if x < 0 ∨ y < 0 ∨ x ≥ g.nsubdivisions * g.ncolumns ∨ y ≥ g.nsubdivisions * g.nrows then
    (intersection, true)
  else
    let tile_column := Int.tdiv x g.nsubdivisions
    let tile_row := Int.tdiv y g.nsubdivisions
    let tile := tile_row * g.ncolumns + tile_column
    let subdivision := toU16 (Int.tmod y g.nsubdivisions * g.nsubdivisions +
      Int.tmod x g.nsubdivisions)
    (imInsert intersection tile subdivision, false)

/-- The body of the loop of `Tiles::Intersect` for the segment from `u` to `v`; `none`
when `bresenham_line` does not return within the fuel. -/
def Intersect.segment (g : Tiles) (fuel : Nat) (u v : Point2)
    (intersection : List (Int × List Int)) : Option (List (Int × List Int)) :=
  let x0 := g.SubdivisionX u.x
  let y0 := g.SubdivisionY u.y
  let x1 := g.SubdivisionX v.x
  let y1 := g.SubdivisionY v.y
  if truncToInt x0 = truncToInt x1 ∧ truncToInt y0 = truncToInt y1 then
    some (Intersect.set_pixel g intersection ⌊x0⌋ ⌊y0⌋).1
  else
    let r := bresenham_line x0 y0 x1 y1 (Intersect.set_pixel g) fuel intersection
    if r.2 = true then some r.1 else none

/-- The `while(vi != line.cend())` loop of `Tiles::Intersect` over the vertices from
`ui` on; `size` is `line.size()`. -/
def Intersect.loop (g : Tiles) (fuel size : Nat) :
    List Point2 → List (Int × List Int) → Option (List (Int × List Int))
  | [], intersection => some intersection
  | [u], intersection =>
    if size > 1 then some intersection else Intersect.segment g fuel u u intersection
  | u :: v :: line, intersection =>
    match Intersect.segment g fuel u v intersection with
    | none => none
    | some m => Intersect.loop g fuel size (v :: line) m

/-- Method `Tiles::Intersect` for planar coordinates (`coord_t::IsSpherical()` is
false, so the polyline is not resampled); each call of `bresenham_line` gets `fuel`
iterations. -/
def Intersect (g : Tiles) (fuel : Nat) (linestring : List Point2) :
    Option (List (Int × List Int)) :=
  Intersect.loop g fuel linestring.length linestring []

/-- The grid `(0, 0, 4, 4)` with tile size `2` and 2 subdivisions per tile edge. -/
def grid2x2s2 : Tiles := ⟨⟨0, 0, 4, 4⟩, 2, 2⟩

/-- The world grid `(-180, -90, 180, 90)` with tile size `0.2f`, the `float` nearest to
one fifth: `13421773 / 2^26`. -/
def worldFifth : Tiles := ⟨⟨-180, -90, 180, 90⟩, 13421773 / 67108864, 1⟩

/-- The world grid `(-180, -90, 180, 90)` with tile size `0.25`. -/
def worldQuarter : Tiles := ⟨⟨-180, -90, 180, 90⟩, 1 / 4, 1⟩

end Tiles

/-! ## Arithmetic helpers -/

theorem toU32_of_range {x : Int} (h0 : 0 ≤ x) (h1 : x < 4294967296) : toU32 x = x := by
  unfold toU32; omega

theorem toI32_of_range {x : Int} (h0 : -2147483648 ≤ x) (h1 : x < 2147483648) :
    toI32 x = x := by
  unfold toI32; omega

theorem toU32_le_self {x : Int} (h0 : 0 ≤ x) : toU32 x ≤ x := by
  unfold toU32; omega

theorem truncToInt_intCast (k : Int) : truncToInt (k : ℚ) = k := by
  unfold truncToInt; split <;> simp

theorem truncToInt_of_nonneg {q : ℚ} (h : 0 ≤ q) : truncToInt q = ⌊q⌋ := by
  unfold truncToInt; simp [h]

/-- Row and column of a linear index: truncating division agrees with the Euclidean
one on non-negative operands. -/
theorem tdiv_row_col {n row col : Int} (hc0 : 0 ≤ col) (hc1 : col < n) (hr : 0 ≤ row) :
    Int.tdiv (row * n + col) n = row ∧ Int.tmod (row * n + col) n = col := by
  have hn : 0 < n := by omega
  have hnn : 0 ≤ row * n + col := by positivity
  rw [Int.tdiv_eq_ediv hnn hn.le, Int.tmod_eq_emod hnn hn.le]
  constructor
  · rw [Int.add_comm, Int.add_mul_ediv_right _ _ hn.ne.symm, Int.ediv_eq_zero_of_lt hc0 hc1]
    simp
  · rw [Int.add_comm, Int.add_mul_emod_self, Int.emod_eq_of_lt hc0 hc1]

/-- Every index in `[0, n * r)` splits into a row in `[0, r)` and a column in
`[0, n)`. -/
theorem index_split {n r t : Int} (hn : 0 < n) (h0 : 0 ≤ t) (h1 : t < n * r) :
    0 ≤ Int.tdiv t n ∧ Int.tdiv t n < r ∧ 0 ≤ t - Int.tdiv t n * n ∧
      t - Int.tdiv t n * n < n := by
  rw [Int.tdiv_eq_ediv h0 hn.le]
  have h2 := Int.emod_add_ediv t n
  have h3 := Int.emod_nonneg t hn.ne.symm
  have h4 := Int.emod_lt_of_pos t hn
  have h5 : 0 ≤ t / n := Int.ediv_nonneg h0 hn.le
  have h6 : t / n < r := by
    by_contra hcon
    push_neg at hcon
    have : n * r ≤ n * (t / n) := Int.mul_le_mul_of_nonneg_left hcon hn.le
    omega
  have h7 : t / n * n = n * (t / n) := Int.mul_comm _ _
  refine ⟨h5, h6, ?_, ?_⟩ <;> omega

/-! ## Rounding to `float` -/

theorem roundHalfEven_intCast (k : Int) : roundHalfEven (k : ℚ) = k := by
  unfold roundHalfEven
  rw [Int.floor_intCast, sub_self, if_pos (by norm_num)]

theorem floor_le_roundHalfEven (y : ℚ) : ⌊y⌋ ≤ roundHalfEven y := by
  unfold roundHalfEven
  split_ifs <;> omega

theorem roundHalfEven_nonneg {y : ℚ} (h : 0 ≤ y) : 0 ≤ roundHalfEven y :=
  le_trans (Int.floor_nonneg.mpr h) (floor_le_roundHalfEven y)

theorem roundHalfEven_pos {y : ℚ} (h : 1 ≤ y) : 0 < roundHalfEven y := by
  have h1 : 1 ≤ ⌊y⌋ := Int.le_floor.mpr (by exact_mod_cast h)
  have := floor_le_roundHalfEven y
  omega

/-- The binade of a nonzero rational. -/
theorem log_two_eq {x : ℚ} {e : Int} (h1 : (2 : ℚ) ^ e ≤ |x|) (h2 : |x| < 2 ^ (e + 1)) :
    Int.log 2 |x| = e := by
  have hpos : 0 < |x| := lt_of_lt_of_le (by positivity) h1
  have a : e ≤ Int.log 2 |x| := by
    apply (Int.zpow_le_iff_le_log (by norm_num) hpos).mp
    exact_mod_cast h1
  have b : Int.log 2 |x| < e + 1 := by
    apply (Int.lt_zpow_iff_log_lt (by norm_num) hpos).mp
    exact_mod_cast h2
  omega

/-- Evaluation of `f32` at a number of the binade `[2^e, 2^(e+1))`. -/
theorem f32_eq {x : ℚ} (e m : Int) (h1 : (2 : ℚ) ^ e ≤ |x|) (h2 : |x| < 2 ^ (e + 1))
    (h3 : roundHalfEven (x / 2 ^ (e - 23)) = m) : f32 x = m * 2 ^ (e - 23) := by
  unfold f32
  simp only []
  rw [log_two_eq h1 h2, h3]

/-- Evaluation of `f32` at a positive number of the binade `[2^e, 2^(e+1))`. -/
theorem f32_eq_pos {x r : ℚ} (e m : Int) (h1 : (2 : ℚ) ^ e ≤ x) (h2 : x < 2 ^ (e + 1))
    (h3 : roundHalfEven (x / 2 ^ (e - 23)) = m) (hr : (m : ℚ) * 2 ^ (e - 23) = r) :
    f32 x = r := by
  have hx : |x| = x := abs_of_pos (lt_of_lt_of_le (by positivity) h1)
  rw [← hr]
  exact f32_eq e m (by rw [hx]; exact h1) (by rw [hx]; exact h2) h3

/-- Evaluation of `f32` at a negative number whose opposite is of the binade
`[2^e, 2^(e+1))`. -/
theorem f32_eq_neg {x r : ℚ} (e m : Int) (h1 : (2 : ℚ) ^ e ≤ -x) (h2 : -x < 2 ^ (e + 1))
    (h3 : roundHalfEven (x / 2 ^ (e - 23)) = m) (hr : (m : ℚ) * 2 ^ (e - 23) = r) :
    f32 x = r := by
  have hneg : x < 0 := by
    have : (0 : ℚ) < 2 ^ e := by positivity
    linarith
  have hx : |x| = -x := abs_of_neg hneg
  rw [← hr]
  exact f32_eq e m (by rw [hx]; exact h1) (by rw [hx]; exact h2) h3

theorem f32_zero : f32 0 = 0 := by
  unfold f32
  simp [roundHalfEven]

theorem f32_pos {x : ℚ} (h : 0 < x) : 0 < f32 x := by
  unfold f32
  simp only []
  have hx : |x| = x := abs_of_pos h
  rw [hx]
  have h1 : ((2 : ℕ) : ℚ) ^ Int.log 2 x ≤ x := Int.zpow_log_le_self (by norm_num) h
  have hu : (0 : ℚ) < 2 ^ (Int.log 2 x - 23) := by positivity
  have h2 : (1 : ℚ) ≤ x / 2 ^ (Int.log 2 x - 23) := by
    rw [le_div_iff₀ hu, one_mul]
    refine le_trans ?_ h1
    push_cast
    exact zpow_le_zpow_right₀ (by norm_num) (by omega)
  have := roundHalfEven_pos h2
  have h3 : (0 : ℚ) < (roundHalfEven (x / 2 ^ (Int.log 2 x - 23)) : ℚ) := by exact_mod_cast this
  exact mul_pos h3 hu

theorem f32_nonneg {x : ℚ} (h : 0 ≤ x) : 0 ≤ f32 x := by
  rcases h.lt_or_eq with h | h
  · exact (f32_pos h).le
  · rw [← h, f32_zero]

/-- A number with at most 24 significant bits is a `float`: rounding keeps it. -/
theorem f32_exact (m e : Int) (hm : |m| < 2 ^ 24) : f32 (m * 2 ^ e) = m * 2 ^ e := by
  by_cases h0 : m = 0
  · subst h0; simp [f32_zero]
  have hmq : (0 : ℚ) < |(m : ℚ)| := by
    rw [abs_pos]; exact_mod_cast h0
  have hxpos : (0 : ℚ) < |(m : ℚ) * 2 ^ e| := by
    rw [abs_mul]; exact mul_pos hmq (by positivity)
  have hlog : Int.log 2 |(m : ℚ) * 2 ^ e| < e + 24 := by
    apply (Int.lt_zpow_iff_log_lt (by norm_num) hxpos).mp
    push_cast
    rw [abs_mul, abs_of_pos (by positivity : (0 : ℚ) < 2 ^ e), zpow_add₀ (by norm_num), mul_comm]
    have hm2 : |(m : ℚ)| < 2 ^ (24 : ℤ) := by
      have : ((|m| : Int) : ℚ) < ((2 ^ 24 : Int) : ℚ) := by exact_mod_cast hm
      push_cast at this
      exact_mod_cast this
    exact mul_lt_mul_of_pos_left hm2 (by positivity)
  unfold f32
  simp only []
  obtain ⟨k, hk⟩ : ∃ k : ℕ, e - (Int.log 2 |(m : ℚ) * 2 ^ e| - 23) = k :=
    ⟨(e - (Int.log 2 |(m : ℚ) * 2 ^ e| - 23)).toNat, by omega⟩
  have hdiv : (m : ℚ) * 2 ^ e / 2 ^ (Int.log 2 |(m : ℚ) * 2 ^ e| - 23) = ((m * 2 ^ k : Int) : ℚ) := by
    rw [mul_div_assoc, ← zpow_sub₀ (by norm_num), hk]
    push_cast
    rw [zpow_natCast]
  rw [hdiv, roundHalfEven_intCast]
  push_cast
  rw [mul_assoc, ← zpow_natCast, ← hk, ← zpow_add₀ (by norm_num)]
  congr 2
  ring

/-- A `float` value, given by its significand `m` and exponent `e`, is kept by `f32`. -/
theorem f32_float {x : ℚ} (e m : Int) (hx : (m : ℚ) * 2 ^ e = x) (hm : |m| < 2 ^ 24) :
    f32 x = x := by
  rw [← hx]
  exact f32_exact m e hm

theorem f32_intCast (k : Int) (hk : |k| < 2 ^ 24) : f32 (k : ℚ) = k := by
  have := f32_exact k 0 hk
  simpa using this

namespace Tiles

/-! ## Grid geometry -/

theorem ncolumns_pos {g : Tiles} (h : g.WellFormed) : 0 < g.ncolumns := by
  obtain ⟨hts, hw, -⟩ := h
  unfold ncolumns
  exact Int.ceil_pos.mpr (f32_pos (div_pos (f32_pos (sub_pos.mpr hw)) hts))

theorem nrows_pos {g : Tiles} (h : g.WellFormed) : 0 < g.nrows := by
  obtain ⟨hts, -, hh⟩ := h
  unfold nrows
  exact Int.ceil_pos.mpr (f32_pos (div_pos (f32_pos (sub_pos.mpr hh)) hts))

theorem TileCount_le {g : Tiles} (h : g.WellFormed) : g.TileCount ≤ g.ncolumns * g.nrows := by
  unfold TileCount
  exact toU32_le_self (Int.mul_nonneg (ncolumns_pos h).le (nrows_pos h).le)

/-- A valid tile id splits into a valid row and a valid column. -/
theorem valid_split {g : Tiles} (h : g.WellFormed) {t : Int} (h0 : 0 ≤ t)
    (h1 : t < g.TileCount) :
    0 ≤ Int.tdiv t g.ncolumns ∧ Int.tdiv t g.ncolumns < g.nrows ∧
      0 ≤ t - Int.tdiv t g.ncolumns * g.ncolumns ∧
      t - Int.tdiv t g.ncolumns * g.ncolumns < g.ncolumns :=
  index_split (ncolumns_pos h) h0 (lt_of_lt_of_le h1 (TileCount_le h))

/-- Within the bounds, `Row` is not negative. -/
theorem Row_nonneg {g : Tiles} (h : g.WellFormed) {y : ℚ} (h0 : g.tilebounds.miny ≤ y)
    (h1 : y ≤ g.tilebounds.maxy) : 0 ≤ g.Row y := by
  unfold Row
  rw [if_neg (by push_neg; exact ⟨h0, h1⟩)]
  split_ifs
  · have := nrows_pos h
    omega
  · have hq : 0 ≤ f32 (f32 (y - g.tilebounds.miny) / g.tilesize) :=
      f32_nonneg (div_nonneg (f32_nonneg (by linarith)) h.1.le)
    rw [truncToInt_of_nonneg hq]
    exact Int.floor_nonneg.mpr hq

/-- Within the bounds, `Col` is not negative. -/
theorem Col_nonneg {g : Tiles} (h : g.WellFormed) {x : ℚ} (h0 : g.tilebounds.minx ≤ x)
    (h1 : x ≤ g.tilebounds.maxx) : 0 ≤ g.Col x := by
  unfold Col
  rw [if_neg (by push_neg; exact ⟨h0, h1⟩)]
  split_ifs with hmax
  · have := ncolumns_pos h
    omega
  · have hq : 0 ≤ f32 (f32 (x - g.tilebounds.minx) / g.tilesize) :=
      f32_nonneg (div_nonneg (f32_nonneg (by linarith)) h.1.le)
    simp only []
    rw [if_pos hq, truncToInt_of_nonneg hq]
    exact Int.floor_nonneg.mpr hq

/-- The tile id of a point within the bounds is not negative (it is not `-1`). -/
theorem TileId_nonneg {g : Tiles} (h : g.WellFormed) {x y : ℚ}
    (hx0 : g.tilebounds.minx ≤ x) (hx1 : x ≤ g.tilebounds.maxx)
    (hy0 : g.tilebounds.miny ≤ y) (hy1 : y ≤ g.tilebounds.maxy) : 0 ≤ g.TileId y x := by
  unfold TileId
  rw [if_neg (by push_neg; exact ⟨hy0, hx0, hy1, hx1⟩)]
  have := Int.mul_nonneg (Row_nonneg h hy0 hy1) (ncolumns_pos h).le
  have := Col_nonneg h hx0 hx1
  omega

theorem grid2x2_shape : grid2x2.WellFormed ∧ grid2x2.ncolumns = 2 ∧ grid2x2.nrows = 2 ∧
    grid2x2.TileCount = 4 := by
  have s1 : f32 4 = 4 := f32_float 2 1 (by norm_num) (by norm_num)
  have s2 : f32 2 = 2 := f32_float 1 1 (by norm_num) (by norm_num)
  refine ⟨by norm_num [WellFormed, grid2x2], by norm_num [grid2x2, ncolumns, s1, s2],
    by norm_num [grid2x2, nrows, s1, s2], by norm_num [grid2x2, TileCount, ncolumns, toU32, s1, s2]⟩

theorem worldFifth_shape : worldFifth.WellFormed ∧ worldFifth.ncolumns = 1800 ∧
    worldFifth.nrows = 900 ∧ worldFifth.TileCount = 1620000 := by
  have s1 : f32 360 = 360 := f32_float 3 45 (by norm_num) (by norm_num)
  have s2 : f32 (24159191040 / 13421773) = 1800 :=
    f32_eq_pos 10 14745600 (by norm_num) (by norm_num) (by norm_num [roundHalfEven])
      (by norm_num)
  have s3 : f32 180 = 180 := f32_float 2 45 (by norm_num) (by norm_num)
  have s4 : f32 (12079595520 / 13421773) = 900 :=
    f32_eq_pos 9 14745600 (by norm_num) (by norm_num) (by norm_num [roundHalfEven])
      (by norm_num)
  refine ⟨by norm_num [WellFormed, worldFifth], by norm_num [worldFifth, ncolumns, s1, s2],
    by norm_num [worldFifth, nrows, s3, s4],
    by norm_num [worldFifth, TileCount, ncolumns, toU32, s1, s2, s3, s4]⟩

theorem worldQuarter_shape : worldQuarter.WellFormed ∧ worldQuarter.ncolumns = 1440 ∧
    worldQuarter.nrows = 720 ∧ worldQuarter.TileCount = 1036800 := by
  have s1 : f32 360 = 360 := f32_float 3 45 (by norm_num) (by norm_num)
  have s2 : f32 1440 = 1440 := f32_float 5 45 (by norm_num) (by norm_num)
  have s3 : f32 180 = 180 := f32_float 2 45 (by norm_num) (by norm_num)
  have s4 : f32 720 = 720 := f32_float 4 45 (by norm_num) (by norm_num)
  refine ⟨by norm_num [WellFormed, worldQuarter], by norm_num [worldQuarter, ncolumns, s1, s2],
    by norm_num [worldQuarter, nrows, s3, s4],
    by norm_num [worldQuarter, TileCount, ncolumns, toU32, s1, s2, s3, s4]⟩

/-- C1, evaluated on the code: on the world grid `(-180, -90, 180, 90)` with tile size
`0.2f` (1800 columns, 900 rows, 1620000 tiles) tile `1` is valid.  `Base(1)` is
`(-11783373/65536, -90)`: the sum `-180 + 0.2f` is rounded down to the `float` below the
corner of the tile.  For this point `Col` divides `13107/65536` by `0.2f`, which rounds
to `65535/65536` and truncates to `0`: `TileId(Base(1))` is `0`, not `1`. -/
theorem TileId_Base_rounds :
    worldFifth.WellFormed ∧ worldFifth.ValidId 1 ∧
      worldFifth.Base 1 = ⟨-(11783373 / 65536), -90⟩ ∧
      worldFifth.TileIdOf (worldFifth.Base 1) = 0 := by
  obtain ⟨hwf, hc, hr, hn⟩ := worldFifth_shape
  have e1 : worldFifth.tilebounds = ⟨-180, -90, 180, 90⟩ := by simp only [worldFifth]
  have e2 : worldFifth.tilesize = 13421773 / 67108864 := by simp only [worldFifth]
  have t3 : f32 1 = 1 := f32_float 0 1 (by norm_num) (by norm_num)
  have t4 : f32 (13421773 / 67108864) = 13421773 / 67108864 :=
    f32_float (-26) 13421773 (by norm_num) (by norm_num)
  have t5 : f32 (-(12066173747 / 67108864)) = -(11783373 / 65536) :=
    f32_eq_neg 7 (-11783373) (by norm_num) (by norm_num) (by norm_num [roundHalfEven])
      (by norm_num)
  have t6 : f32 (-90) = -90 := f32_float 1 (-45) (by norm_num) (by norm_num)
  have t7 : f32 (13107 / 65536) = 13107 / 65536 :=
    f32_float (-16) 13107 (by norm_num) (by norm_num)
  have t8 : f32 (13421568 / 13421773) = 65535 / 65536 :=
    f32_eq_pos (-1) 16776960 (by norm_num) (by norm_num) (by norm_num [roundHalfEven])
      (by norm_num)
  have hb : worldFifth.Base 1 = ⟨-(11783373 / 65536), -90⟩ := by
    simp only [Base, hc, e1, e2]
    norm_num [Int.tdiv, f32_zero, t3, t4, t5, t6]
  refine ⟨hwf, ?_, hb, ?_⟩
  · unfold ValidId
    rw [hn]
    decide
  · rw [hb]
    simp only [TileIdOf, TileId, Row, Col, hc, hr, e1, e2]
    norm_num [truncToInt, f32_zero, t7, t8]

/-- C2, evaluated on the code: on the world grid `(-180, -90, 180, 90)` with tile size
`0.25` (1440 columns, 720 rows, 1036800 tiles) the point with `x = 180 - 2^-16` and
`y = 90 - 2^-17`, the `float` values just below `maxx` and `maxy`, lies within the
bounds.  The differences `x - minx` and `y - miny` round to `360` and `180`, so `Col`
is `1440` and `Row` is `720`, and `TileId(y, x)` is `1038240`, which is not a valid
tile id.  At `y = 0` and the same `x`, `TileId` is the valid tile `519840`, whose bounds
`(-180, 1/4, -719/4, 1/2)` do not contain the point. -/
theorem TileId_beyond_TileCount :
    worldQuarter.WellFormed ∧
      worldQuarter.InBounds ⟨11796479 / 65536, 11796479 / 131072⟩ ∧
      worldQuarter.TileId (11796479 / 131072) (11796479 / 65536) = 1038240 ∧
      ¬ worldQuarter.ValidId 1038240 ∧
      worldQuarter.InBounds ⟨11796479 / 65536, 0⟩ ∧
      worldQuarter.TileId 0 (11796479 / 65536) = 519840 ∧
      worldQuarter.ValidId 519840 ∧
      worldQuarter.TileBounds 519840 = ⟨-180, 1 / 4, -(719 / 4), 1 / 2⟩ := by
  obtain ⟨hwf, hc, hr, hn⟩ := worldQuarter_shape
  have e1 : worldQuarter.tilebounds = ⟨-180, -90, 180, 90⟩ := by simp only [worldQuarter]
  have e2 : worldQuarter.tilesize = 1 / 4 := by simp only [worldQuarter]
  have t1 : f32 (23592959 / 131072) = 180 :=
    f32_eq_pos 7 11796480 (by norm_num) (by norm_num) (by norm_num [roundHalfEven])
      (by norm_num)
  have t2 : f32 720 = 720 := f32_float 4 45 (by norm_num) (by norm_num)
  have t4 : f32 1440 = 1440 := f32_float 5 45 (by norm_num) (by norm_num)
  have t5 : f32 (23592959 / 65536) = 360 :=
    f32_eq_pos 8 11796480 (by norm_num) (by norm_num) (by norm_num [roundHalfEven])
      (by norm_num)
  have t6 : f32 90 = 90 := f32_float 1 45 (by norm_num) (by norm_num)
  have t6b : f32 360 = 360 := f32_float 3 45 (by norm_num) (by norm_num)
  have t7 : f32 (-180) = -180 := f32_float 2 (-45) (by norm_num) (by norm_num)
  have t8 : f32 361 = 361 := f32_float 0 361 (by norm_num) (by norm_num)
  have t9 : f32 (361 / 4) = 361 / 4 := f32_float (-2) 361 (by norm_num) (by norm_num)
  have t10 : f32 (1 / 4) = 1 / 4 := f32_float (-2) 1 (by norm_num) (by norm_num)
  have t11 : f32 (-(719 / 4)) = -(719 / 4) := f32_float (-2) (-719) (by norm_num) (by norm_num)
  have t12 : f32 (1 / 2) = 1 / 2 := f32_float (-1) 1 (by norm_num) (by norm_num)
  refine ⟨hwf, ?_, ?_, ?_, ?_, ?_, ?_, ?_⟩
  · norm_num [InBounds, e1]
  · simp only [TileId, Row, Col, hc, hr, e1, e2]
    norm_num [truncToInt, t1, t2, t4, t5]
  · unfold ValidId
    rw [hn]
    decide
  · norm_num [InBounds, e1]
  · simp only [TileId, Row, Col, hc, hr, e1, e2]
    norm_num [truncToInt, t2, t4, t5, t6, t6b]
  · unfold ValidId
    rw [hn]
    decide
  · simp only [TileBounds, Base, hc, e1, e2]
    norm_num [Int.tdiv, f32_zero, t7, t8, t9, t10, t11, t12]

/-- C3: `Row(y)` is `-1` for every `y < miny` or `y > maxy` and `nrows - 1` at
`y == maxy`; `Col(x)` is `-1` for every `x < minx` or `x > maxx` and `ncolumns - 1` at
`x == maxx`. -/
theorem Row_Col_edges (g : Tiles) (hx : g.tilebounds.minx ≤ g.tilebounds.maxx)
    (hy : g.tilebounds.miny ≤ g.tilebounds.maxy) :
    (∀ y : ℚ, y < g.tilebounds.miny ∨ y > g.tilebounds.maxy → g.Row y = -1) ∧
      g.Row g.tilebounds.maxy = g.nrows - 1 ∧
      (∀ x : ℚ, x < g.tilebounds.minx ∨ x > g.tilebounds.maxx → g.Col x = -1) ∧
      g.Col g.tilebounds.maxx = g.ncolumns - 1 := by
  refine ⟨?_, ?_, ?_, ?_⟩
  · intro y hout
    unfold Row
    rw [if_pos hout]
  · unfold Row
    rw [if_neg (by push_neg; exact ⟨hy, le_refl _⟩), if_pos rfl]
  · intro x hout
    unfold Col
    rw [if_pos hout]
  · unfold Col
    rw [if_neg (by push_neg; exact ⟨hx, le_refl _⟩), if_pos rfl]

/-- C3 on the grid `(0, 0, 4, 4)` with tile size `2`. -/
theorem Row_Col_edges_witness :
    (∀ y : ℚ, y < grid2x2.tilebounds.miny ∨ y > grid2x2.tilebounds.maxy →
        grid2x2.Row y = -1) ∧
      grid2x2.Row grid2x2.tilebounds.maxy = grid2x2.nrows - 1 ∧
      (∀ x : ℚ, x < grid2x2.tilebounds.minx ∨ x > grid2x2.tilebounds.maxx →
        grid2x2.Col x = -1) ∧
      grid2x2.Col grid2x2.tilebounds.maxx = grid2x2.ncolumns - 1 :=
  Row_Col_edges grid2x2 (by norm_num [grid2x2]) (by norm_num [grid2x2])

/-- C4: for every column `c` in `[0, ncolumns)` and every row `r` in `[0, nrows)`,
`GetRowColumn(TileId(c, r)) == (r, c)`. -/
theorem GetRowColumn_TileId (g : Tiles) (c r : Int) (hc0 : 0 ≤ c) (hc1 : c < g.ncolumns)
    (hr0 : 0 ≤ r) (_hr1 : r < g.nrows) : g.GetRowColumn (g.TileIdColRow c r) = (r, c) := by
  obtain ⟨hd, hm⟩ := tdiv_row_col hc0 hc1 hr0
  unfold GetRowColumn TileIdColRow
  rw [hd, hm]

/-- C4 at column `1`, row `0` of the grid `(0, 0, 4, 4)` with tile size `2`. -/
theorem GetRowColumn_TileId_witness :
    grid2x2.GetRowColumn (grid2x2.TileIdColRow 1 0) = (0, 1) :=
  GetRowColumn_TileId grid2x2 1 0 (by decide) (by rw [grid2x2_shape.2.1]; decide) (by decide)
    (by rw [grid2x2_shape.2.2.1]; decide)

/-- C5: for every pair of tile ids `a` and `b`, if `TileOffsets(a, b)` yields
`(delta_rows, delta_cols)` then `GetRelativeTileId(a, delta_rows, delta_cols) == b`. -/
theorem GetRelativeTileId_TileOffsets (g : Tiles) (a b delta_rows delta_cols : Int)
    (h : g.TileOffsets a b = (delta_rows, delta_cols)) :
    g.GetRelativeTileId a delta_rows delta_cols = b := by
  unfold TileOffsets at h
  simp only [Prod.mk.injEq] at h
  obtain ⟨h1, h2⟩ := h
  unfold GetRelativeTileId
  rw [← h2, h1]
  ring

/-- C5 at tiles `0` and `3` of the grid `(0, 0, 4, 4)` with tile size `2`, where the
offsets are one row and one column. -/
theorem GetRelativeTileId_TileOffsets_witness :
    grid2x2.GetRelativeTileId 0 1 1 = 3 :=
  GetRelativeTileId_TileOffsets grid2x2 0 3 1 1
    (by simp only [TileOffsets, grid2x2_shape.2.1]; norm_num [Int.tdiv])

/-- C6: on the grid with bounds `(0, 0, 4, 4)` and tile size `2` there are 2 columns
and 2 rows, the tile at `x = 1, y = 1` is `0`, the tile at `x = 3, y = 3` is `3`,
`RightNeighbor(0) == 1`, `LeftNeighbor(0) == 1`, `TopNeighbor(0) == 2` and
`BottomNeighbor(0) == 0`. -/
theorem grid2x2_example :
    grid2x2.ncolumns = 2 ∧ grid2x2.nrows = 2 ∧
      grid2x2.TileIdOf ⟨1, 1⟩ = 0 ∧ grid2x2.TileIdOf ⟨3, 3⟩ = 3 ∧
      grid2x2.RightNeighbor 0 = 1 ∧ grid2x2.LeftNeighbor 0 = 1 ∧
      grid2x2.TopNeighbor 0 = 2 ∧ grid2x2.BottomNeighbor 0 = 0 := by
  obtain ⟨-, hc, hr, hn⟩ := grid2x2_shape
  have e1 : grid2x2.tilebounds = ⟨0, 0, 4, 4⟩ := rfl
  have e2 : grid2x2.tilesize = 2 := rfl
  have t1 : f32 1 = 1 := f32_float 0 1 (by norm_num) (by norm_num)
  have t2 : f32 (1 / 2) = 1 / 2 := f32_float (-1) 1 (by norm_num) (by norm_num)
  have t5 : f32 3 = 3 := f32_float 0 3 (by norm_num) (by norm_num)
  have t6 : f32 (3 / 2) = 3 / 2 := f32_float (-1) 3 (by norm_num) (by norm_num)
  refine ⟨hc, hr, ?_, ?_, ?_, ?_, ?_, ?_⟩
  · simp only [TileIdOf, TileId, Row, Col, hc, hr, e1, e2]
    norm_num [truncToInt, t1, t2]
  · simp only [TileIdOf, TileId, Row, Col, hc, hr, e1, e2]
    norm_num [truncToInt, t5, t6]
  · norm_num [RightNeighbor, hc, Int.tdiv]
  · norm_num [LeftNeighbor, hc, Int.tdiv]
  · norm_num [TopNeighbor, hc, hn, toU32, toI32]
  · norm_num [BottomNeighbor, hc]

/-! ## Neighbour topology -/

/-- A row and a column in range determine the tile id. -/
theorem rc_unique {n r c r2 c2 : Int} (hc0 : 0 ≤ c) (hc1 : c < n) (hd0 : 0 ≤ c2)
    (hd1 : c2 < n) (hr : 0 ≤ r) (hr2 : 0 ≤ r2) :
    r2 * n + c2 = r * n + c ↔ r2 = r ∧ c2 = c := by
  constructor
  · intro h
    obtain ⟨e1, e2⟩ := tdiv_row_col hc0 hc1 hr
    obtain ⟨f1, f2⟩ := tdiv_row_col hd0 hd1 hr2
    rw [h] at f1 f2
    exact ⟨by rw [← f1, e1], by rw [← f2, e2]⟩
  · rintro ⟨rfl, rfl⟩; rfl

/-- A tile id in range, as row and column. -/
theorem rc_range {n rows r c : Int} (hc0 : 0 ≤ c) (hc1 : c < n) (hr0 : 0 ≤ r)
    (hr1 : r < rows) : 0 ≤ r * n + c ∧ r * n + c < n * rows := by
  have h1 := Int.mul_nonneg hr0 (by omega : 0 ≤ n)
  have h2 : (r + 1) * n ≤ rows * n := Int.mul_le_mul_of_nonneg_right (by omega) (by omega)
  have h3 : (r + 1) * n = r * n + n := by ring
  have h4 : rows * n = n * rows := Int.mul_comm _ _
  omega

theorem TileCount_eq {g : Tiles} (h : g.WellFormed) (hf : g.FitsInt32) :
    g.TileCount = g.ncolumns * g.nrows := by
  unfold FitsInt32 at hf
  have := Int.mul_nonneg (ncolumns_pos h).le (nrows_pos h).le
  unfold TileCount
  exact toU32_of_range this (by unfold nrows at hf this; omega)

theorem RightNeighbor_rc {g : Tiles} {r c : Int} (hc0 : 0 ≤ c) (hc1 : c < g.ncolumns)
    (hr0 : 0 ≤ r) :
    g.RightNeighbor (r * g.ncolumns + c) =
      r * g.ncolumns + (if c < g.ncolumns - 1 then c + 1 else 0) := by
  unfold RightNeighbor
  simp only [(tdiv_row_col hc0 hc1 hr0).1, add_sub_cancel_left]
  split <;> omega

theorem LeftNeighbor_rc {g : Tiles} {r c : Int} (hc0 : 0 ≤ c) (hc1 : c < g.ncolumns)
    (hr0 : 0 ≤ r) :
    g.LeftNeighbor (r * g.ncolumns + c) =
      r * g.ncolumns + (if c > 0 then c - 1 else g.ncolumns - 1) := by
  unfold LeftNeighbor
  simp only [(tdiv_row_col hc0 hc1 hr0).1, add_sub_cancel_left]
  split <;> omega

theorem BottomNeighbor_rc {g : Tiles} {r c : Int} (hc0 : 0 ≤ c) (hc1 : c < g.ncolumns)
    (hr0 : 0 ≤ r) :
    g.BottomNeighbor (r * g.ncolumns + c) =
      (if r = 0 then 0 else r - 1) * g.ncolumns + c := by
  unfold BottomNeighbor
  by_cases hr : r = 0
  · subst hr
    simp [hc1]
  · have h1 : 1 * g.ncolumns ≤ r * g.ncolumns :=
      Int.mul_le_mul_of_nonneg_right (by omega) (by omega)
    have h2 : (r - 1) * g.ncolumns = r * g.ncolumns - g.ncolumns := by ring
    rw [if_neg (by omega), if_neg hr, h2]
    omega

theorem TopNeighbor_rc {g : Tiles} (h : g.WellFormed) (hf : g.FitsInt32) {r c : Int}
    (hc0 : 0 ≤ c) (hc1 : c < g.ncolumns) (hr0 : 0 ≤ r) (hr1 : r < g.nrows) :
    g.TopNeighbor (r * g.ncolumns + c) =
      (if r < g.nrows - 1 then r + 1 else r) * g.ncolumns + c := by
  have hn := ncolumns_pos h
  have hcount := TileCount_eq h hf
  unfold FitsInt32 at hf
  have hle : 1 * g.ncolumns ≤ g.nrows * g.ncolumns :=
    Int.mul_le_mul_of_nonneg_right (by omega) (by omega)
  have hcomm : g.nrows * g.ncolumns = g.ncolumns * g.nrows := Int.mul_comm _ _
  have e1 : toU32 g.ncolumns = g.ncolumns := toU32_of_range hn.le (by omega)
  have e2 : toI32 (toU32 (g.TileCount - toU32 g.ncolumns)) =
      g.ncolumns * g.nrows - g.ncolumns := by
    rw [e1, hcount, toU32_of_range (by omega) (by omega), toI32_of_range (by omega) (by omega)]
  unfold TopNeighbor
  rw [e2]
  by_cases hr : r < g.nrows - 1
  · have h2 : (r + 2) * g.ncolumns ≤ g.nrows * g.ncolumns :=
      Int.mul_le_mul_of_nonneg_right (by omega) (by omega)
    have h3 : (r + 2) * g.ncolumns = r * g.ncolumns + 2 * g.ncolumns := by ring
    have h4 : (r + 1) * g.ncolumns = r * g.ncolumns + g.ncolumns := by ring
    rw [if_pos (by omega), if_pos hr, h4]
    omega
  · have h2 : r = g.nrows - 1 := by omega
    have h3 : (g.nrows - 1) * g.ncolumns = g.nrows * g.ncolumns - g.ncolumns := by ring
    rw [if_neg hr, if_neg (by rw [h2, h3]; omega)]

/-- A valid tile id is `r * ncolumns + c` for its row `r` and column `c`, which
`GetRowColumn` returns. -/
theorem valid_rc {g : Tiles} (h : g.WellFormed) {t : Int} (ht : g.ValidId t) :
    ∃ r c : Int, 0 ≤ c ∧ c < g.ncolumns ∧ 0 ≤ r ∧ r < g.nrows ∧
      t = r * g.ncolumns + c ∧ g.GetRowColumn t = (r, c) := by
  obtain ⟨hr0, hr1, hc0, hc1⟩ := valid_split h ht.1 ht.2
  refine ⟨Int.tdiv t g.ncolumns, t - Int.tdiv t g.ncolumns * g.ncolumns, hc0, hc1, hr0, hr1,
    by ring, ?_⟩
  unfold GetRowColumn
  rw [Int.tmod_def, Int.mul_comm]

/-- Row and column in range give a valid tile id. -/
theorem rc_valid {g : Tiles} (h : g.WellFormed) (hf : g.FitsInt32) {r c : Int} (hc0 : 0 ≤ c)
    (hc1 : c < g.ncolumns) (hr0 : 0 ≤ r) (hr1 : r < g.nrows) :
    g.ValidId (r * g.ncolumns + c) := by
  unfold ValidId
  rw [TileCount_eq h hf]
  exact rc_range hc0 hc1 hr0 hr1

/-- Function `AreNeighbors` on valid tiles, in terms of rows and columns. -/
theorem AreNeighbors_rc {g : Tiles} (h : g.WellFormed) (hf : g.FitsInt32)
    {ra ca rb cb : Int} (hca0 : 0 ≤ ca) (hca1 : ca < g.ncolumns) (hra0 : 0 ≤ ra)
    (hra1 : ra < g.nrows) (hcb0 : 0 ≤ cb) (hcb1 : cb < g.ncolumns) (hrb0 : 0 ≤ rb)
    (_hrb1 : rb < g.nrows) :
    g.AreNeighbors (ra * g.ncolumns + ca) (rb * g.ncolumns + cb) = true ↔
      (rb = (if ra < g.nrows - 1 then ra + 1 else ra) ∧ cb = ca) ∨
      (rb = ra ∧ cb = (if ca < g.ncolumns - 1 then ca + 1 else 0)) ∨
      (rb = (if ra = 0 then 0 else ra - 1) ∧ cb = ca) ∨
      (rb = ra ∧ cb = (if ca > 0 then ca - 1 else g.ncolumns - 1)) := by
  have hfit := hf
  unfold FitsInt32 at hfit
  obtain ⟨ha0, ha1⟩ := rc_range hca0 hca1 hra0 hra1
  have ei : toI32 (ra * g.ncolumns + ca) = ra * g.ncolumns + ca :=
    toI32_of_range (by omega) (by omega)
  have hu : ∀ r c : Int, 0 ≤ c → c < g.ncolumns → 0 ≤ r → r < g.nrows →
      toU32 (r * g.ncolumns + c) = r * g.ncolumns + c := by
    intro r c h1 h2 h3 h4
    obtain ⟨k0, k1⟩ := rc_range h1 h2 h3 h4
    exact toU32_of_range k0 (by omega)
  unfold AreNeighbors
  rw [ei, TopNeighbor_rc h hf hca0 hca1 hra0 hra1, RightNeighbor_rc hca0 hca1 hra0,
    BottomNeighbor_rc hca0 hca1 hra0, LeftNeighbor_rc hca0 hca1 hra0]
  rw [hu _ _ hca0 hca1 (by split <;> omega) (by split <;> omega),
    hu _ _ (by split <;> omega) (by split <;> omega) hra0 hra1,
    hu _ _ hca0 hca1 (by split <;> omega) (by split <;> omega),
    hu _ _ (by split <;> omega) (by split <;> omega) hra0 hra1]
  simp only [Bool.or_eq_true, beq_iff_eq, or_assoc]
  rw [rc_unique hca0 hca1 hcb0 hcb1 (by split <;> omega) hrb0,
    rc_unique (by split <;> omega) (by split <;> omega) hcb0 hcb1 hra0 hrb0,
    rc_unique hca0 hca1 hcb0 hcb1 (by split <;> omega) hrb0,
    rc_unique (by split <;> omega) (by split <;> omega) hcb0 hcb1 hra0 hrb0]

/-- Function `AreNeighbors` on valid tiles: one row up or down in the same column, the same
tile on the bottom or top row, one column left or right in the same row, or the two
ends of one row. -/
theorem AreNeighbors_rc_iff {g : Tiles} (h : g.WellFormed) (hf : g.FitsInt32)
    {ra ca rb cb : Int} (hca0 : 0 ≤ ca) (hca1 : ca < g.ncolumns) (hra0 : 0 ≤ ra)
    (hra1 : ra < g.nrows) (hcb0 : 0 ≤ cb) (hcb1 : cb < g.ncolumns) (hrb0 : 0 ≤ rb)
    (hrb1 : rb < g.nrows) :
    g.AreNeighbors (ra * g.ncolumns + ca) (rb * g.ncolumns + cb) = true ↔
      (cb = ca ∧ (rb = ra + 1 ∨ rb = ra - 1 ∨ (rb = ra ∧ (ra = 0 ∨ ra = g.nrows - 1)))) ∨
      (rb = ra ∧ (cb = ca + 1 ∨ cb = ca - 1 ∨ (ca = g.ncolumns - 1 ∧ cb = 0) ∨
        (ca = 0 ∧ cb = g.ncolumns - 1))) := by
  rw [AreNeighbors_rc h hf hca0 hca1 hra0 hra1 hcb0 hcb1 hrb0 hrb1]
  have hn := ncolumns_pos h
  have hr := nrows_pos h
  constructor
  · intro hh
    split_ifs at hh <;> omega
  · intro hh
    split_ifs <;> omega

/-- On the valid tiles of a well-formed grid of fewer than `2^31` tiles `AreNeighbors` is
symmetric. -/
theorem AreNeighbors_symm_aux {g : Tiles} (h : g.WellFormed) (hf : g.FitsInt32) {a b : Int}
    (ha : g.ValidId a) (hb : g.ValidId b) : g.AreNeighbors a b = g.AreNeighbors b a := by
  obtain ⟨ra, ca, hca0, hca1, hra0, hra1, rfl, -⟩ := valid_rc h ha
  obtain ⟨rb, cb, hcb0, hcb1, hrb0, hrb1, rfl, -⟩ := valid_rc h hb
  have e1 := AreNeighbors_rc_iff h hf hca0 hca1 hra0 hra1 hcb0 hcb1 hrb0 hrb1
  have e2 := AreNeighbors_rc_iff h hf hcb0 hcb1 hrb0 hrb1 hca0 hca1 hra0 hra1
  rw [Bool.eq_iff_iff, e1, e2]
  omega

theorem grid3x1_shape : grid3x1.WellFormed ∧ grid3x1.ncolumns = 3 ∧ grid3x1.nrows = 1 ∧
    grid3x1.TileCount = 3 := by
  have s1 : f32 6 = 6 := f32_float 1 3 (by norm_num) (by norm_num)
  have s2 : f32 3 = 3 := f32_float 0 3 (by norm_num) (by norm_num)
  have s3 : f32 2 = 2 := f32_float 1 1 (by norm_num) (by norm_num)
  have s4 : f32 1 = 1 := f32_float 0 1 (by norm_num) (by norm_num)
  refine ⟨by norm_num [WellFormed, grid3x1], by norm_num [grid3x1, ncolumns, s1, s2],
    by norm_num [grid3x1, nrows, s3, s4],
    by norm_num [grid3x1, TileCount, ncolumns, toU32, s1, s2, s3, s4]⟩

/-- C7, as stated, fails: on the grid of one row of three tiles, tile `2` is two
columns away from tile `0`, both are valid, and `AreNeighbors(0, 2)` is true, because
`LeftNeighbor(0)` wraps to the last tile of the row. -/
theorem AreNeighbors_distant_true :
    grid3x1.WellFormed ∧ grid3x1.FitsInt32 ∧ grid3x1.ValidId 0 ∧ grid3x1.ValidId 2 ∧
      grid3x1.Distant 0 2 ∧ grid3x1.LeftNeighbor 0 = 2 ∧
      grid3x1.AreNeighbors 0 2 = true := by
  obtain ⟨hwf, hc, hr, hn⟩ := grid3x1_shape
  refine ⟨hwf, ?_, ?_, ?_, ?_, ?_, ?_⟩
  · unfold FitsInt32; rw [hc, hr]; decide
  · unfold ValidId; rw [hn]; decide
  · unfold ValidId; rw [hn]; decide
  · unfold Distant GetRowColumn; rw [hc]; decide
  · unfold LeftNeighbor; rw [hc]; decide
  · unfold AreNeighbors TopNeighbor RightNeighbor BottomNeighbor LeftNeighbor
    rw [hn, hc]; decide

/-- C7, amended: for valid tile ids `a` and `b` of a well-formed grid,
`AreNeighbors(a, b)` is true when `b` is directly above, below, left of or right of
`a`, and false when `b` is diagonal to `a` or more than one tile away from `a`, unless
`a` and `b` are the two ends of one row (the column wrap). -/
theorem AreNeighbors_cardinal (g : Tiles) (h : g.WellFormed) (hf : g.FitsInt32) (a b : Int)
    (ha : g.ValidId a) (hb : g.ValidId b) :
    (g.Cardinal a b → g.AreNeighbors a b = true) ∧
      (g.Diagonal a b ∨ g.Distant a b → ¬ g.RowEnds a b → g.AreNeighbors a b = false) := by
  obtain ⟨ra, ca, hca0, hca1, hra0, hra1, rfl, ea⟩ := valid_rc h ha
  obtain ⟨rb, cb, hcb0, hcb1, hrb0, hrb1, rfl, eb⟩ := valid_rc h hb
  have e1 := AreNeighbors_rc_iff h hf hca0 hca1 hra0 hra1 hcb0 hcb1 hrb0 hrb1
  unfold Cardinal Diagonal Distant RowEnds
  rw [ea, eb, Bool.eq_false_iff, Ne, e1]
  simp only []
  constructor
  · intro hc; omega
  · intro hd hw; omega

/-- C7, amended, at tiles `0` and `2` of the grid `(0, 0, 4, 4)` with tile size `2`. -/
theorem AreNeighbors_cardinal_witness :
    (grid2x2.Cardinal 0 2 → grid2x2.AreNeighbors 0 2 = true) ∧
      (grid2x2.Diagonal 0 2 ∨ grid2x2.Distant 0 2 → ¬ grid2x2.RowEnds 0 2 →
        grid2x2.AreNeighbors 0 2 = false) :=
  AreNeighbors_cardinal grid2x2 grid2x2_shape.1
    (by unfold FitsInt32; rw [grid2x2_shape.2.1, grid2x2_shape.2.2.1]; decide) 0 2
    (by unfold ValidId; rw [grid2x2_shape.2.2.2]; decide)
    (by unfold ValidId; rw [grid2x2_shape.2.2.2]; decide)

/-- The four neighbours of a valid tile are valid tiles. -/
theorem neighbors_valid {g : Tiles} (h : g.WellFormed) (hf : g.FitsInt32) {t : Int}
    (ht : g.ValidId t) :
    g.ValidId (g.LeftNeighbor t) ∧ g.ValidId (g.RightNeighbor t) ∧
      g.ValidId (g.TopNeighbor t) ∧ g.ValidId (g.BottomNeighbor t) := by
  obtain ⟨r, c, hc0, hc1, hr0, hr1, rfl, -⟩ := valid_rc h ht
  rw [LeftNeighbor_rc hc0 hc1 hr0, RightNeighbor_rc hc0 hc1 hr0,
    TopNeighbor_rc h hf hc0 hc1 hr0 hr1, BottomNeighbor_rc hc0 hc1 hr0]
  refine ⟨rc_valid h hf ?_ ?_ hr0 hr1, rc_valid h hf ?_ ?_ hr0 hr1,
    rc_valid h hf hc0 hc1 ?_ ?_, rc_valid h hf hc0 hc1 ?_ ?_⟩ <;> split <;> omega

/-- The threshold of `TopNeighbor`: `TileCount() - ncolumns_` as `int32_t`. -/
theorem TopNeighbor_threshold {g : Tiles} (h : g.WellFormed) (hf : g.FitsInt32) :
    toI32 (toU32 (g.TileCount - toU32 g.ncolumns)) = g.ncolumns * g.nrows - g.ncolumns := by
  have hn := ncolumns_pos h
  have hcount := TileCount_eq h hf
  unfold FitsInt32 at hf
  have hle : 1 * g.ncolumns ≤ g.nrows * g.ncolumns :=
    Int.mul_le_mul_of_nonneg_right (by have := nrows_pos h; omega) (by omega)
  have hcomm : g.nrows * g.ncolumns = g.ncolumns * g.nrows := Int.mul_comm _ _
  have e1 : toU32 g.ncolumns = g.ncolumns := toU32_of_range hn.le (by omega)
  rw [e1, hcount, toU32_of_range (by omega) (by omega), toI32_of_range (by omega) (by omega)]

/-- The four neighbours of a number of `[0, ncolumns * R)`, a tile id of the first `R`
rows, are in that range when `R` is at least `nrows`: `TopNeighbor` never steps past
the last row of the grid, and the other three stay in the row or step down. -/
theorem neighbors_below {g : Tiles} (h : g.WellFormed) (hf : g.FitsInt32) {R t : Int}
    (hR : g.nrows ≤ R) (h0 : 0 ≤ t) (h1 : t < g.ncolumns * R) :
    (0 ≤ g.LeftNeighbor t ∧ g.LeftNeighbor t < g.ncolumns * R) ∧
      (0 ≤ g.RightNeighbor t ∧ g.RightNeighbor t < g.ncolumns * R) ∧
      (0 ≤ g.TopNeighbor t ∧ g.TopNeighbor t < g.ncolumns * R) ∧
      (0 ≤ g.BottomNeighbor t ∧ g.BottomNeighbor t < g.ncolumns * R) := by
  have hn := ncolumns_pos h
  obtain ⟨hr0, hr1, hc0, hc1⟩ := index_split hn h0 h1
  have et : t = Int.tdiv t g.ncolumns * g.ncolumns + (t - Int.tdiv t g.ncolumns * g.ncolumns) := by
    ring
  have htop : 0 ≤ g.TopNeighbor t ∧ g.TopNeighbor t < g.ncolumns * R := by
    unfold TopNeighbor
    rw [TopNeighbor_threshold h hf]
    have hm : g.ncolumns * g.nrows ≤ g.ncolumns * R := Int.mul_le_mul_of_nonneg_left hR hn.le
    split <;> omega
  generalize Int.tdiv t g.ncolumns = r at hr0 hr1 hc0 hc1 et
  generalize t - r * g.ncolumns = c at hc0 hc1 et
  refine ⟨?_, ?_, htop, ?_⟩
  · rw [et, LeftNeighbor_rc hc0 hc1 hr0]
    exact rc_range (by split <;> omega) (by split <;> omega) hr0 hr1
  · rw [et, RightNeighbor_rc hc0 hc1 hr0]
    exact rc_range (by split <;> omega) (by split <;> omega) hr0 hr1
  · rw [et, BottomNeighbor_rc hc0 hc1 hr0]
    exact rc_range hc0 hc1 (by split <;> omega) (by split <;> omega)

/-- A duplicate-free list of numbers of `[0, M)` is no longer than `M`. -/
theorem below_nodup_length {M : Int} {l : List Int} (hn : l.Nodup)
    (hv : ∀ v ∈ l, 0 ≤ v ∧ v < M) : l.length ≤ M.toNat := by
  have hsub : l.toFinset ⊆ Finset.Ico 0 M := by
    intro v hvm
    rw [List.mem_toFinset] at hvm
    exact Finset.mem_Ico.mpr (hv v hvm)
  have := Finset.card_le_card hsub
  rw [List.toFinset_card_of_nodup hn, Int.card_Ico] at this
  simpa using this

theorem TileList.check_inv {g : Tiles} {M : Int} (intersects : AABB2 → AABB2 → Bool)
    (bbox : AABB2) {s : List Int × List Int} {neighbor : Int} (hs : TileList.Inv M s)
    (hn : 0 ≤ neighbor ∧ neighbor < M) :
    TileList.Inv M (TileList.check g intersects bbox s neighbor) ∧
      (TileList.check g intersects bbox s neighbor).1.length + s.2.length =
        s.1.length + (TileList.check g intersects bbox s neighbor).2.length := by
  obtain ⟨h1, h2, h3⟩ := hs
  unfold TileList.check
  split
  · rename_i hc
    refine ⟨⟨List.nodup_cons.mpr ⟨hc.1, h1⟩, ?_, ?_⟩, ?_⟩
    · intro v hv
      rcases List.mem_cons.mp hv with rfl | hv
      · exact hn
      · exact h2 v hv
    · intro q hq
      rcases List.mem_append.mp hq with hq | hq
      · exact List.mem_cons_of_mem _ (h3 q hq)
      · rw [List.mem_singleton.mp hq]; exact List.mem_cons_self _ _
    · simp; omega
  · exact ⟨⟨h1, h2, h3⟩, by omega⟩

/-- The loop of `TileList` returns when the fuel covers the checklist and the tiles of
the first `R` rows not yet visited, `R` being at least `nrows`. -/
theorem TileList.loop_returns {g : Tiles} (h : g.WellFormed) (hf : g.FitsInt32)
    (intersects : AABB2 → AABB2 → Bool) (bbox : AABB2) {R : Int} (hR : g.nrows ≤ R) :
    ∀ (fuel : Nat) (checklist visited tilelist : List Int),
      TileList.Inv (g.ncolumns * R) (checklist, visited) →
      checklist.length + (g.ncolumns * R).toNat ≤ fuel + visited.length →
      ∃ out, TileList.loop g intersects bbox fuel checklist visited tilelist = some out := by
  intro fuel
  induction fuel with
  | zero =>
    intro checklist visited tilelist hinv hm
    cases checklist with
    | nil => exact ⟨tilelist, by simp [TileList.loop]⟩
    | cons t rest =>
      have hlen : visited.length ≤ (g.ncolumns * R).toNat :=
        below_nodup_length hinv.1 hinv.2.1
      simp only [List.length_cons] at hm
      omega
  | succ fuel ih =>
    intro checklist visited tilelist hinv hm
    cases checklist with
    | nil => exact ⟨tilelist, by simp [TileList.loop]⟩
    | cons t rest =>
      have ht := hinv.2.1 t (hinv.2.2 t (List.mem_cons_self _ _))
      obtain ⟨hl, hr, htop, hb⟩ := neighbors_below h hf hR ht.1 ht.2
      have h0 : TileList.Inv (g.ncolumns * R) (rest, visited) :=
        ⟨hinv.1, hinv.2.1, fun q hq => hinv.2.2 q (List.mem_cons_of_mem _ hq)⟩
      obtain ⟨i1, m1⟩ := TileList.check_inv (g := g) intersects bbox h0 hl
      obtain ⟨i2, m2⟩ := TileList.check_inv (g := g) intersects bbox i1 hr
      obtain ⟨i3, m3⟩ := TileList.check_inv (g := g) intersects bbox i2 htop
      obtain ⟨i4, m4⟩ := TileList.check_inv (g := g) intersects bbox i3 hb
      simp only [TileList.loop]
      apply ih
      · exact i4
      · simp only [List.length_cons] at hm m1
        omega

/-- With an empty checklist the loop of `TileList` returns the tile list. -/
theorem TileList.loop_nil (g : Tiles) (intersects : AABB2 → AABB2 → Bool) (bbox : AABB2)
    (fuel : Nat) (visited tilelist : List Int) :
    TileList.loop g intersects bbox fuel [] visited tilelist = some tilelist := by
  cases fuel <;> rfl

/-- The result of the loop of `TileList` starts with the tiles already listed followed
by the front of the checklist. -/
theorem TileList.loop_prefix (g : Tiles) (intersects : AABB2 → AABB2 → Bool) (bbox : AABB2) :
    ∀ (fuel : Nat) (checklist visited tilelist out : List Int),
      TileList.loop g intersects bbox fuel checklist visited tilelist = some out →
      tilelist ++ checklist.take 1 <+: out := by
  intro fuel
  induction fuel with
  | zero =>
    intro checklist visited tilelist out he
    cases checklist with
    | nil =>
      simp [TileList.loop] at he
      simp [he]
    | cons t rest => simp [TileList.loop] at he
  | succ fuel ih =>
    intro checklist visited tilelist out he
    cases checklist with
    | nil =>
      simp [TileList.loop] at he
      simp [he]
    | cons t rest =>
      simp only [TileList.loop] at he
      have := ih _ _ _ _ he
      exact (List.prefix_append _ _).trans this

/-- Whatever the tile of the center is, `TileList` returns with enough fuel, and
the list it returns starts with that tile. -/
theorem TileList.seeded {g : Tiles} (h : g.WellFormed) (hf : g.FitsInt32)
    (intersects : AABB2 → AABB2 → Bool) (bbox : AABB2) (hin : g.InBounds bbox.Center) :
    ∃ fuel0, ∀ fuel, fuel0 ≤ fuel →
      ∃ rest, g.TileList intersects fuel bbox = some (g.TileIdOf bbox.Center :: rest) := by
  obtain ⟨hx0, hx1, hy0, hy1⟩ := hin
  have hn := ncolumns_pos h
  have hs0 : 0 ≤ g.TileIdOf bbox.Center := TileId_nonneg h hx0 hx1 hy0 hy1
  have hne : ¬ g.TileIdOf bbox.Center = -1 := by omega
  obtain ⟨R, hR, hsR⟩ : ∃ R : Int, g.nrows ≤ R ∧ g.TileIdOf bbox.Center < g.ncolumns * R := by
    refine ⟨max (g.TileIdOf bbox.Center + 1) g.nrows, le_max_right _ _, ?_⟩
    have h1 : g.ncolumns * (g.TileIdOf bbox.Center + 1) ≤
        g.ncolumns * max (g.TileIdOf bbox.Center + 1) g.nrows :=
      Int.mul_le_mul_of_nonneg_left (le_max_left _ _) hn.le
    have h2 : 1 * (g.TileIdOf bbox.Center + 1) ≤ g.ncolumns * (g.TileIdOf bbox.Center + 1) :=
      Int.mul_le_mul_of_nonneg_right (by omega) (by omega)
    omega
  have hinv : TileList.Inv (g.ncolumns * R)
      ([g.TileIdOf bbox.Center], [g.TileIdOf bbox.Center]) := by
    refine ⟨List.nodup_singleton _, ?_, fun q hq => hq⟩
    intro v hvm
    rw [List.mem_singleton.mp hvm]
    exact ⟨hs0, hsR⟩
  refine ⟨(g.ncolumns * R).toNat, ?_⟩
  intro fuel hfuel
  obtain ⟨out, hout⟩ := TileList.loop_returns h hf intersects bbox hR fuel
    [g.TileIdOf bbox.Center] [g.TileIdOf bbox.Center] [] hinv
    (by simp only [List.length_singleton]; omega)
  obtain ⟨rest, hrest⟩ := TileList.loop_prefix g intersects bbox _ _ _ _ _ hout
  refine ⟨rest, ?_⟩
  unfold TileList
  simp only [if_neg hne]
  rw [hout, ← hrest]
  rfl

/-- C9: if the center of the query box lies within the grid bounds, `TileList` returns
(given enough fuel for its loop) a non-empty list whose first element is
`TileId(center)`; if the center lies outside the grid bounds, `TileList` returns the
empty list, whatever the box intersects. -/
theorem TileList_center (g : Tiles) (h : g.WellFormed) (hf : g.FitsInt32)
    (intersects : AABB2 → AABB2 → Bool) (bbox : AABB2) :
    (g.InBounds bbox.Center →
        ∃ fuel0, ∀ fuel, fuel0 ≤ fuel →
          ∃ rest, g.TileList intersects fuel bbox = some (g.TileIdOf bbox.Center :: rest)) ∧
      (¬ g.InBounds bbox.Center → ∀ fuel, g.TileList intersects fuel bbox = some []) := by
  constructor
  · exact TileList.seeded h hf intersects bbox
  · intro hout fuel
    have he : g.TileIdOf bbox.Center = -1 := by
      unfold TileIdOf TileId
      rw [if_pos]
      unfold InBounds at hout
      by_contra hcon
      push_neg at hcon
      exact hout ⟨hcon.2.1, hcon.2.2.2, hcon.1, hcon.2.2.1⟩
    unfold TileList
    simp only [he, if_true]

/-- C9 at the box `(0, 0, 2, 2)` on the grid `(0, 0, 4, 4)` with tile size `2`, with an
intersection test that admits no neighbour. -/
theorem TileList_center_witness :
    (grid2x2.InBounds (AABB2.Center ⟨0, 0, 2, 2⟩) →
        ∃ fuel0, ∀ fuel, fuel0 ≤ fuel →
          ∃ rest, grid2x2.TileList (fun _ _ => false) fuel ⟨0, 0, 2, 2⟩ =
            some (grid2x2.TileIdOf (AABB2.Center ⟨0, 0, 2, 2⟩) :: rest)) ∧
      (¬ grid2x2.InBounds (AABB2.Center ⟨0, 0, 2, 2⟩) →
        ∀ fuel, grid2x2.TileList (fun _ _ => false) fuel ⟨0, 0, 2, 2⟩ = some []) :=
  TileList_center grid2x2 grid2x2_shape.1
    (by unfold FitsInt32; rw [grid2x2_shape.2.1, grid2x2_shape.2.2.1]; decide)
    (fun _ _ => false) ⟨0, 0, 2, 2⟩

/-- C18, evaluated on the code: on the world grid `(-180, -90, 180, 90)` with tile size
`0.25` the query box that is the single point `(180 - 2^-16, 90 - 2^-17)` has its
center, that point, within the grid bounds.  `TileId(center)` is `1038240` (see C2),
which is not a valid tile id, and its bounds `(-180, 361/4, -719/4, 181/2)` do not
intersect the box; `TileList` returns the list `[1038240]`, whatever fuel of at least
one iteration it gets.  The valid tile `1036799`, whose bounds `(719/4, 359/4, 180, 90)`
contain the point, is not in the list. -/
theorem TileList_lists_invalid_tile :
    worldQuarter.InBounds (AABB2.Center
      ⟨11796479 / 65536, 11796479 / 131072, 11796479 / 65536, 11796479 / 131072⟩) ∧
    (∀ n, worldQuarter.TileList AABB2.Intersects (n + 1)
      ⟨11796479 / 65536, 11796479 / 131072, 11796479 / 65536, 11796479 / 131072⟩ =
        some [1038240]) ∧
    ¬ worldQuarter.ValidId 1038240 ∧
    AABB2.Intersects ⟨11796479 / 65536, 11796479 / 131072, 11796479 / 65536, 11796479 / 131072⟩
      (worldQuarter.TileBounds 1038240) = false ∧
    worldQuarter.ValidId 1036799 ∧
    AABB2.Intersects ⟨11796479 / 65536, 11796479 / 131072, 11796479 / 65536, 11796479 / 131072⟩
      (worldQuarter.TileBounds 1036799) = true := by
  obtain ⟨hwf, hc, hr, hn⟩ := worldQuarter_shape
  have e1 : worldQuarter.tilebounds = ⟨-180, -90, 180, 90⟩ := by simp only [worldQuarter]
  have e2 : worldQuarter.tilesize = 1 / 4 := by simp only [worldQuarter]
  have u1 : f32 (11796479 / 65536) = 11796479 / 65536 :=
    f32_float (-16) 11796479 (by norm_num) (by norm_num)
  have u2 : f32 (11796479 / 131072) = 11796479 / 131072 :=
    f32_float (-17) 11796479 (by norm_num) (by norm_num)
  have u3 : f32 (23592959 / 131072) = 180 :=
    f32_eq_pos 7 11796480 (by norm_num) (by norm_num) (by norm_num [roundHalfEven])
      (by norm_num)
  have u4 : f32 720 = 720 := f32_float 4 45 (by norm_num) (by norm_num)
  have u6 : f32 1440 = 1440 := f32_float 5 45 (by norm_num) (by norm_num)
  have u7 : f32 (23592959 / 65536) = 360 :=
    f32_eq_pos 8 11796480 (by norm_num) (by norm_num) (by norm_num [roundHalfEven])
      (by norm_num)
  have u8 : f32 180 = 180 := f32_float 2 45 (by norm_num) (by norm_num)
  have u9 : f32 1439 = 1439 := f32_float 0 1439 (by norm_num) (by norm_num)
  have u10 : f32 (1439 / 4) = 1439 / 4 := f32_float (-2) 1439 (by norm_num) (by norm_num)
  have u11 : f32 (719 / 4) = 719 / 4 := f32_float (-2) 719 (by norm_num) (by norm_num)
  have u12 : f32 721 = 721 := f32_float 0 721 (by norm_num) (by norm_num)
  have u13 : f32 (721 / 4) = 721 / 4 := f32_float (-2) 721 (by norm_num) (by norm_num)
  have u14 : f32 (361 / 4) = 361 / 4 := f32_float (-2) 361 (by norm_num) (by norm_num)
  have u15 : f32 (181 / 2) = 181 / 2 := f32_float (-1) 181 (by norm_num) (by norm_num)
  have u16 : f32 1 = 1 := f32_float 0 1 (by norm_num) (by norm_num)
  have u17 : f32 (1 / 4) = 1 / 4 := f32_float (-2) 1 (by norm_num) (by norm_num)
  have u18 : f32 (-(719 / 4)) = -(719 / 4) := f32_float (-2) (-719) (by norm_num) (by norm_num)
  have u19 : f32 (-(359 / 2)) = -(359 / 2) := f32_float (-1) (-359) (by norm_num) (by norm_num)
  have u20 : f32 (-180) = -180 := f32_float 2 (-45) (by norm_num) (by norm_num)
  have u21 : f32 90 = 90 := f32_float 1 45 (by norm_num) (by norm_num)
  have u22 : f32 719 = 719 := f32_float 0 719 (by norm_num) (by norm_num)
  have u23 : f32 (359 / 4) = 359 / 4 := f32_float (-2) 359 (by norm_num) (by norm_num)
  have hcen : AABB2.Center
      ⟨11796479 / 65536, 11796479 / 131072, 11796479 / 65536, 11796479 / 131072⟩ =
        ⟨11796479 / 65536, 11796479 / 131072⟩ := by
    simp only [AABB2.Center]
    norm_num [u1, u2]
  have hid : worldQuarter.TileIdOf ⟨11796479 / 65536, 11796479 / 131072⟩ = 1038240 := by
    simp only [TileIdOf, TileId, Row, Col, hc, hr, e1, e2]
    norm_num [truncToInt, u3, u4, u6, u7]
  have hL : worldQuarter.LeftNeighbor 1038240 = 1039679 := by
    simp only [LeftNeighbor, hc]
    norm_num [Int.tdiv]
  have hR : worldQuarter.RightNeighbor 1038240 = 1038241 := by
    simp only [RightNeighbor, hc]
    norm_num [Int.tdiv]
  have hT : worldQuarter.TopNeighbor 1038240 = 1038240 := by
    simp only [TopNeighbor, hc, hn]
    norm_num [toU32, toI32]
  have hB : worldQuarter.BottomNeighbor 1038240 = 1036800 := by
    simp only [BottomNeighbor, hc]
    norm_num
  have bL : worldQuarter.TileBounds 1039679 = ⟨719 / 4, 361 / 4, 180, 181 / 2⟩ := by
    simp only [TileBounds, Base, hc, e1, e2]
    norm_num [Int.tdiv, u8, u9, u10, u11, u12, u13, u14, u15]
  have bR : worldQuarter.TileBounds 1038241 = ⟨-(719 / 4), 361 / 4, -(359 / 2), 181 / 2⟩ := by
    simp only [TileBounds, Base, hc, e1, e2]
    norm_num [Int.tdiv, u12, u13, u14, u15, u16, u17, u18, u19]
  have bT : worldQuarter.TileBounds 1038240 = ⟨-180, 361 / 4, -(719 / 4), 181 / 2⟩ := by
    simp only [TileBounds, Base, hc, e1, e2]
    norm_num [Int.tdiv, f32_zero, u12, u13, u14, u15, u18, u20]
  have bB : worldQuarter.TileBounds 1036800 = ⟨-180, 90, -(719 / 4), 361 / 4⟩ := by
    simp only [TileBounds, Base, hc, e1, e2]
    norm_num [Int.tdiv, f32_zero, u4, u8, u14, u18, u20, u21]
  have bV : worldQuarter.TileBounds 1036799 = ⟨719 / 4, 359 / 4, 180, 90⟩ := by
    simp only [TileBounds, Base, hc, e1, e2]
    norm_num [Int.tdiv, u8, u9, u10, u11, u21, u22, u23]
  refine ⟨?_, ?_, ?_, ?_, ?_, ?_⟩
  · rw [hcen]
    norm_num [InBounds, e1]
  · intro n
    simp only [TileList, hcen, hid, TileList.loop, TileList.check, hL, hR, hT, hB, bL, bR, bT, bB]
    norm_num [AABB2.Intersects, TileList.loop_nil]
  · unfold ValidId
    rw [hn]
    decide
  · rw [bT]
    norm_num [AABB2.Intersects]
  · unfold ValidId
    rw [hn]
    decide
  · rw [bV]
    norm_num [AABB2.Intersects]

/-! ## Connectivity maps -/

theorem cmSet_keys (m : List (Int × Nat)) (k : Int) (c : Nat) :
    (cmSet m k c).map Prod.fst = m.map Prod.fst := by
  induction m with
  | nil => rfl
  | cons e m ih =>
    unfold cmSet
    split
    · rfl
    · simp [ih]

theorem cmSet_length (m : List (Int × Nat)) (k : Int) (c : Nat) :
    (cmSet m k c).length = m.length := by
  have := congrArg List.length (cmSet_keys m k c)
  simpa using this

theorem cmFind_cmSet_ne (m : List (Int × Nat)) {k k2 : Int} (c : Nat) (h : k2 ≠ k) :
    cmFind (cmSet m k c) k2 = cmFind m k2 := by
  induction m with
  | nil => rfl
  | cons e m ih =>
    unfold cmSet
    by_cases he : e.1 = k
    · rw [if_pos he]
      unfold cmFind
      simp only []
      rw [if_neg (by rw [he]; exact fun x => h x.symm), if_neg (by rw [he]; exact fun x => h x.symm)]
    · rw [if_neg he]
      unfold cmFind
      rw [ih]

theorem cmFind_cmSet_self (m : List (Int × Nat)) {k : Int} {x : Nat} (c : Nat)
    (h : cmFind m k = some x) : cmFind (cmSet m k c) k = some c := by
  induction m with
  | nil => simp [cmFind] at h
  | cons e m ih =>
    unfold cmSet
    by_cases he : e.1 = k
    · rw [if_pos he]
      unfold cmFind
      simp [he]
    · rw [if_neg he]
      unfold cmFind at h ⊢
      rw [if_neg he] at h ⊢
      exact ih h

theorem cmFind_some_mem {m : List (Int × Nat)} {k : Int} {x : Nat} (h : cmFind m k = some x) :
    (k, x) ∈ m := by
  induction m with
  | nil => simp [cmFind] at h
  | cons e m ih =>
    unfold cmFind at h
    by_cases he : e.1 = k
    · rw [if_pos he] at h
      have : e = (k, x) := by
        cases e
        simp only [Option.some.injEq] at h he
        rw [h, he]
      rw [this]
      exact List.mem_cons_self _ _
    · rw [if_neg he] at h
      exact List.mem_cons_of_mem _ (ih h)

theorem cmFind_some_key {m : List (Int × Nat)} {k : Int} {x : Nat} (h : cmFind m k = some x) :
    k ∈ m.map Prod.fst :=
  List.mem_map.mpr ⟨(k, x), cmFind_some_mem h, rfl⟩

theorem cmFind_of_key {m : List (Int × Nat)} {k : Int} (h : k ∈ m.map Prod.fst) :
    ∃ x, cmFind m k = some x := by
  induction m with
  | nil => simp at h
  | cons e m ih =>
    unfold cmFind
    by_cases he : e.1 = k
    · exact ⟨e.2, by rw [if_pos he]⟩
    · rw [if_neg he]
      apply ih
      simp only [List.map_cons, List.mem_cons] at h
      rcases h with h | h
      · exact absurd h.symm he
      · exact h

theorem cmFind_of_mem {m : List (Int × Nat)} (hn : (m.map Prod.fst).Nodup) {k : Int} {x : Nat}
    (h : (k, x) ∈ m) : cmFind m k = some x := by
  induction m with
  | nil => simp at h
  | cons e m ih =>
    simp only [List.map_cons, List.nodup_cons] at hn
    unfold cmFind
    rcases List.mem_cons.mp h with h | h
    · rw [← h]
      simp
    · have hk : k ∈ m.map Prod.fst := List.mem_map.mpr ⟨(k, x), h, rfl⟩
      rw [if_neg (by intro he; rw [he] at hn; exact hn.1 hk)]
      exact ih hn.2 h

theorem cmZeros_le (m : List (Int × Nat)) : cmZeros m ≤ m.length :=
  List.length_filter_le _ _

theorem cmZeros_cmSet {m : List (Int × Nat)} {k : Int} {c : Nat} (h : cmFind m k = some 0)
    (hc : c ≠ 0) : cmZeros (cmSet m k c) + 1 = cmZeros m := by
  induction m with
  | nil => simp [cmFind] at h
  | cons e m ih =>
    unfold cmFind at h
    unfold cmSet
    by_cases he : e.1 = k
    · rw [if_pos he] at h ⊢
      simp only [Option.some.injEq] at h
      simp [cmZeros, List.filter_cons, h, hc]
    · rw [if_neg he] at h ⊢
      have := ih h
      unfold cmZeros at this ⊢
      simp only [List.filter_cons]
      split
      · simp only [List.length_cons]; omega
      · exact this

theorem ColorMap.visit_measure {c : Nat} (hc : c ≠ 0) (s : List (Int × Nat) × List Int)
    (nb : Int) :
    cmZeros (ColorMap.visit c s nb).1 + (ColorMap.visit c s nb).2.length =
      cmZeros s.1 + s.2.length := by
  unfold ColorMap.visit
  split
  · rename_i h
    have := cmZeros_cmSet h hc
    simp
    omega
  · rfl

/-- The inner loop of `ColorMap` returns when the fuel covers the checklist and the
entries of color `0`. -/
theorem ColorMap.bfs_returns (g : Tiles) {c : Nat} (hc : c ≠ 0) :
    ∀ (fuel : Nat) (m : List (Int × Nat)) (checklist : List Int),
      cmZeros m + checklist.length ≤ fuel → ∃ m2, ColorMap.bfs g c fuel m checklist = some m2 := by
  intro fuel
  induction fuel with
  | zero =>
    intro m checklist hm
    cases checklist with
    | nil => exact ⟨m, by simp [ColorMap.bfs]⟩
    | cons t rest => simp at hm
  | succ fuel ih =>
    intro m checklist hm
    cases checklist with
    | nil => exact ⟨m, by simp [ColorMap.bfs]⟩
    | cons t rest =>
      simp only [ColorMap.bfs]
      apply ih
      rw [ColorMap.visit_measure hc, ColorMap.visit_measure hc, ColorMap.visit_measure hc,
        ColorMap.visit_measure hc]
      simp only [List.length_cons] at hm ⊢
      omega

/-- What one neighbour check of the inner loop of `ColorMap` does: keys are kept, an
entry changes only from color `0` to the current color, exactly the changed key is
pushed, and the neighbour checked does not have color `0` afterwards. -/
theorem ColorMap.visit_facts {c : Nat} (hc : c ≠ 0) (s : List (Int × Nat) × List Int)
    (x : Int) :
    (ColorMap.visit c s x).1.map Prod.fst = s.1.map Prod.fst ∧
      (∀ k, cmFind (ColorMap.visit c s x).1 k = cmFind s.1 k ∨
        (cmFind s.1 k = some 0 ∧ cmFind (ColorMap.visit c s x).1 k = some c ∧ k = x ∧
          k ∈ (ColorMap.visit c s x).2)) ∧
      (∀ q ∈ (ColorMap.visit c s x).2, q ∈ s.2 ∨
        (cmFind s.1 q = some 0 ∧ cmFind (ColorMap.visit c s x).1 q = some c ∧ q = x)) ∧
      (∀ q ∈ s.2, q ∈ (ColorMap.visit c s x).2) ∧
      cmFind (ColorMap.visit c s x).1 x ≠ some 0 := by
  by_cases h : cmFind s.1 x = some 0
  · have e : ColorMap.visit c s x = (cmSet s.1 x c, s.2 ++ [x]) := by
      unfold ColorMap.visit; rw [if_pos h]
    rw [e]
    have hx : cmFind (cmSet s.1 x c) x = some c := cmFind_cmSet_self s.1 c h
    refine ⟨cmSet_keys _ _ _, ?_, ?_, ?_, ?_⟩
    · intro k
      by_cases hk : k = x
      · right
        subst hk
        exact ⟨h, hx, rfl, List.mem_append_right _ (List.mem_singleton_self _)⟩
      · left
        exact cmFind_cmSet_ne s.1 c hk
    · intro q hq
      rcases List.mem_append.mp hq with hq | hq
      · exact Or.inl hq
      · have e : q = x := List.mem_singleton.mp hq
        subst e
        exact Or.inr ⟨h, hx, rfl⟩
    · intro q hq
      exact List.mem_append_left _ hq
    · rw [hx]
      intro he
      exact hc (Option.some.inj he)
  · have e : ColorMap.visit c s x = s := by
      unfold ColorMap.visit; rw [if_neg h]
    rw [e]
    exact ⟨rfl, fun k => Or.inl rfl, fun q hq => Or.inl hq, fun q hq => hq, h⟩

/-- What the neighbour checks of one iteration do, for the list `L` of neighbours
checked. -/
theorem ColorMap.fold_facts {c : Nat} (hc : c ≠ 0) (L : List Int) :
    ∀ s : List (Int × Nat) × List Int,
      (L.foldl (ColorMap.visit c) s).1.map Prod.fst = s.1.map Prod.fst ∧
      (∀ k, cmFind (L.foldl (ColorMap.visit c) s).1 k = cmFind s.1 k ∨
        (cmFind s.1 k = some 0 ∧ cmFind (L.foldl (ColorMap.visit c) s).1 k = some c ∧ k ∈ L ∧
          k ∈ (L.foldl (ColorMap.visit c) s).2)) ∧
      (∀ q ∈ (L.foldl (ColorMap.visit c) s).2, q ∈ s.2 ∨
        (cmFind s.1 q = some 0 ∧ cmFind (L.foldl (ColorMap.visit c) s).1 q = some c ∧ q ∈ L)) ∧
      (∀ q ∈ s.2, q ∈ (L.foldl (ColorMap.visit c) s).2) ∧
      (∀ nb ∈ L, cmFind (L.foldl (ColorMap.visit c) s).1 nb ≠ some 0) := by
  induction L with
  | nil =>
    intro s
    exact ⟨rfl, fun k => Or.inl rfl, fun q hq => Or.inl hq, fun q hq => hq,
      fun nb hnb => absurd hnb (List.not_mem_nil _)⟩
  | cons x L ih =>
    intro s
    obtain ⟨v1, v2, v3, v4, v5⟩ := ColorMap.visit_facts hc s x
    obtain ⟨f1, f2, f3, f4, f5⟩ := ih (ColorMap.visit c s x)
    simp only [List.foldl_cons]
    have hsome : ∀ k, cmFind (ColorMap.visit c s x).1 k = some c →
        cmFind (L.foldl (ColorMap.visit c) (ColorMap.visit c s x)).1 k = some c := by
      intro k hk
      rcases f2 k with e | ⟨e, -⟩
      · rw [e, hk]
      · rw [hk] at e
        exact absurd (Option.some.inj e) hc
    have hzero : ∀ k, cmFind (ColorMap.visit c s x).1 k = some 0 → cmFind s.1 k = some 0 := by
      intro k hk
      rcases v2 k with e | ⟨-, e, -⟩
      · rw [← e, hk]
      · rw [hk] at e
        exact absurd (Option.some.inj e).symm hc
    refine ⟨f1.trans v1, ?_, ?_, ?_, ?_⟩
    · intro k
      rcases f2 k with e | ⟨e1, e2, e3, e4⟩
      · rcases v2 k with d | ⟨d1, d2, d3, d4⟩
        · exact Or.inl (e.trans d)
        · exact Or.inr ⟨d1, hsome k d2, by rw [d3]; exact List.mem_cons_self _ _, f4 k d4⟩
      · exact Or.inr ⟨hzero k e1, e2, List.mem_cons_of_mem _ e3, e4⟩
    · intro q hq
      rcases f3 q hq with e | ⟨e1, e2, e3⟩
      · rcases v3 q e with d | ⟨d1, d2, d3⟩
        · exact Or.inl d
        · exact Or.inr ⟨d1, hsome q d2, by rw [d3]; exact List.mem_cons_self _ _⟩
      · exact Or.inr ⟨hzero q e1, e2, List.mem_cons_of_mem _ e3⟩
    · intro q hq
      exact f4 q (v4 q hq)
    · intro nb hnb
      rcases List.mem_cons.mp hnb with e | e
      · subst e
        rcases f2 nb with d | ⟨-, d, -⟩
        · rw [d]; exact v5
        · rw [d]
          intro he
          exact hc (Option.some.inj he)
      · exact f5 nb e

theorem ColorMap.bfs_succ (g : Tiles) (c fuel : Nat) (m : List (Int × Nat)) (t : Int)
    (rest : List Int) :
    ColorMap.bfs g c (fuel + 1) m (t :: rest) =
      ColorMap.bfs g c fuel ((ColorMap.neighbors g t).foldl (ColorMap.visit c) (m, rest)).1
        ((ColorMap.neighbors g t).foldl (ColorMap.visit c) (m, rest)).2 := rfl

theorem valid_conv {g : Tiles} (h : g.WellFormed) (hf : g.FitsInt32) {t : Int}
    (ht : g.ValidId t) : toI32 t = t ∧ toU32 t = t := by
  obtain ⟨h0, h1⟩ := ht
  rw [TileCount_eq h hf] at h1
  unfold FitsInt32 at hf
  exact ⟨toI32_of_range (by omega) (by omega), toU32_of_range h0 (by omega)⟩

theorem ColorMap.neighbors_valid_eq {g : Tiles} (h : g.WellFormed) (hf : g.FitsInt32) {t : Int}
    (ht : g.ValidId t) :
    ColorMap.neighbors g t =
      [g.LeftNeighbor t, g.RightNeighbor t, g.TopNeighbor t, g.BottomNeighbor t] := by
  obtain ⟨hl, hr, htop, hb⟩ := neighbors_valid h hf ht
  unfold ColorMap.neighbors
  rw [(valid_conv h hf ht).1, (valid_conv h hf hl).2, (valid_conv h hf hr).2,
    (valid_conv h hf htop).2, (valid_conv h hf hb).2]

theorem ColorMap.mem_neighbors_iff {g : Tiles} (h : g.WellFormed) (hf : g.FitsInt32) {t b : Int}
    (ht : g.ValidId t) : b ∈ ColorMap.neighbors g t ↔ g.Adjacent t b := by
  rw [ColorMap.neighbors_valid_eq h hf ht]
  unfold Adjacent
  simp

theorem AreNeighbors_iff_Adjacent {g : Tiles} (h : g.WellFormed) (hf : g.FitsInt32) {a b : Int}
    (ha : g.ValidId a) : g.AreNeighbors a b = true ↔ g.Adjacent a b := by
  obtain ⟨hl, hr, htop, hb⟩ := neighbors_valid h hf ha
  unfold AreNeighbors Adjacent
  rw [(valid_conv h hf ha).1, (valid_conv h hf hl).2, (valid_conv h hf hr).2,
    (valid_conv h hf htop).2, (valid_conv h hf hb).2]
  simp only [Bool.or_eq_true, beq_iff_eq]
  tauto

theorem Adjacent_symm {g : Tiles} (h : g.WellFormed) (hf : g.FitsInt32) {a b : Int}
    (ha : g.ValidId a) (hb : g.ValidId b) (hab : g.Adjacent a b) : g.Adjacent b a := by
  rw [← AreNeighbors_iff_Adjacent h hf hb, ← AreNeighbors_symm_aux h hf ha hb,
    AreNeighbors_iff_Adjacent h hf ha]
  exact hab

theorem Connected_symm {g : Tiles} (h : g.WellFormed) (hf : g.FitsInt32) {K : List Int}
    (hK : ∀ k ∈ K, g.ValidId k) {a b : Int} (hab : g.Connected K a b) : g.Connected K b a := by
  unfold Connected at hab ⊢
  refine Relation.ReflTransGen.symmetric ?_ hab
  intro u v huv
  exact ⟨huv.2.1, huv.1, Adjacent_symm h hf (hK u huv.1) (hK v huv.2.1) huv.2.2⟩

/-- One iteration of the inner loop of `ColorMap` keeps the invariant. -/
theorem ColorMap.BInv_step {g : Tiles} (h : g.WellFormed) (hf : g.FitsInt32) {K : List Int}
    (hK : ∀ k ∈ K, g.ValidId k) {m0 : List (Int × Nat)} {s : Int} {c : Nat} (hc : c ≠ 0)
    (hfresh : ∀ k, cmFind m0 k ≠ some c) {m : List (Int × Nat)} {next : Int}
    {rest : List Int} (hinv : ColorMap.BInv g K m0 s c m (next :: rest)) :
    ColorMap.BInv g K m0 s c
      ((ColorMap.neighbors g next).foldl (ColorMap.visit c) (m, rest)).1
      ((ColorMap.neighbors g next).foldl (ColorMap.visit c) (m, rest)).2 := by
  obtain ⟨f1, f2, f3, f4, f5⟩ := ColorMap.fold_facts hc (ColorMap.neighbors g next) (m, rest)
  generalize (ColorMap.neighbors g next).foldl (ColorMap.visit c) (m, rest) = F at f1 f2 f3 f4 f5 ⊢
  have f1 : F.1.map Prod.fst = m.map Prod.fst := f1
  have f2 : ∀ k, cmFind F.1 k = cmFind m k ∨
      (cmFind m k = some 0 ∧ cmFind F.1 k = some c ∧ k ∈ ColorMap.neighbors g next ∧ k ∈ F.2) := f2
  have f3 : ∀ q ∈ F.2, q ∈ rest ∨
      (cmFind m q = some 0 ∧ cmFind F.1 q = some c ∧ q ∈ ColorMap.neighbors g next) := f3
  have f4 : ∀ q ∈ rest, q ∈ F.2 := f4
  have hnextc : cmFind m next = some c := hinv.queued next (List.mem_cons_self _ _)
  have hnextK : next ∈ K := by rw [← hinv.keys]; exact cmFind_some_key hnextc
  have hnextconn : g.Connected K s next := by
    rcases hinv.frame next with e | ⟨-, -, e⟩
    · rw [hnextc] at e; exact absurd e.symm (hfresh next)
    · exact e
  have hkeep : ∀ b, cmFind m b ≠ some 0 → cmFind F.1 b ≠ some 0 := by
    intro b hb
    rcases f2 b with d | ⟨-, d, -⟩
    · rw [d]; exact hb
    · rw [d]; intro he; exact hc (Option.some.inj he)
  have hkeepc : ∀ b, cmFind m b = some c → cmFind F.1 b = some c := by
    intro b hb
    rcases f2 b with d | ⟨d, -⟩
    · rw [d]; exact hb
    · rw [hb] at d; exact absurd (Option.some.inj d) hc
  refine ⟨f1.trans hinv.keys, ?_, ?_, ?_, hkeepc s hinv.source⟩
  · intro k
    rcases f2 k with e | ⟨e1, e2, e3, -⟩
    · rcases hinv.frame k with d | ⟨d1, d2, d3⟩
      · exact Or.inl (e.trans d)
      · exact Or.inr ⟨d1, e.trans d2, d3⟩
    · right
      have hkK : k ∈ K := by rw [← hinv.keys]; exact cmFind_some_key e1
      have hadj : g.Adjacent next k :=
        (ColorMap.mem_neighbors_iff h hf (hK next hnextK)).mp e3
      have hm0 : cmFind m0 k = some 0 := by
        rcases hinv.frame k with d | ⟨-, d, -⟩
        · rw [← d]; exact e1
        · rw [e1] at d; exact absurd (Option.some.inj d).symm hc
      exact ⟨hm0, e2, Relation.ReflTransGen.tail hnextconn ⟨hnextK, hkK, hadj⟩⟩
  · intro q hq
    rcases f3 q hq with e | ⟨-, e, -⟩
    · exact hkeepc q (hinv.queued q (List.mem_cons_of_mem _ e))
    · exact e
  · intro a ha hnot b hb
    by_cases hae : a = next
    · subst hae; exact f5 b hb
    · rcases f2 a with e | ⟨-, -, -, e⟩
      · have hma : cmFind m a = some c := by rw [← e]; exact ha
        have hnotQ : a ∉ next :: rest := by
          intro hmem
          rcases List.mem_cons.mp hmem with x | x
          · exact hae x
          · exact hnot (f4 a x)
        exact hkeep b (hinv.closed a hma hnotQ b hb)
      · exact absurd e hnot

/-- The inner loop of `ColorMap` ends in a state that satisfies the invariant with an
empty checklist. -/
theorem ColorMap.bfs_inv {g : Tiles} (h : g.WellFormed) (hf : g.FitsInt32) {K : List Int}
    (hK : ∀ k ∈ K, g.ValidId k) {m0 : List (Int × Nat)} {s : Int} {c : Nat} (hc : c ≠ 0)
    (hfresh : ∀ k, cmFind m0 k ≠ some c) :
    ∀ (fuel : Nat) (m : List (Int × Nat)) (Q : List Int) (m2 : List (Int × Nat)),
      ColorMap.BInv g K m0 s c m Q → ColorMap.bfs g c fuel m Q = some m2 →
      ColorMap.BInv g K m0 s c m2 [] := by
  intro fuel
  induction fuel with
  | zero =>
    intro m Q m2 hinv he
    cases Q with
    | nil =>
      simp only [ColorMap.bfs, Option.some.injEq] at he
      rw [← he]; exact hinv
    | cons t rest => simp [ColorMap.bfs] at he
  | succ fuel ih =>
    intro m Q m2 hinv he
    cases Q with
    | nil =>
      simp only [ColorMap.bfs, Option.some.injEq] at he
      rw [← he]; exact hinv
    | cons t rest =>
      rw [ColorMap.bfs_succ] at he
      exact ih _ _ _ (ColorMap.BInv_step h hf hK hc hfresh hinv) he

/-- The invariant holds when the inner loop starts from the key `s` of color `0`. -/
theorem ColorMap.BInv_init (g : Tiles) {m0 : List (Int × Nat)} {s : Int} {c : Nat}
    (hfresh : ∀ k, cmFind m0 k ≠ some c) (hs : cmFind m0 s = some 0) :
    ColorMap.BInv g (m0.map Prod.fst) m0 s c (cmSet m0 s c) [s] := by
  have hsc : cmFind (cmSet m0 s c) s = some c := cmFind_cmSet_self m0 c hs
  refine ⟨cmSet_keys _ _ _, ?_, ?_, ?_, hsc⟩
  · intro k
    by_cases hk : k = s
    · subst hk
      exact Or.inr ⟨hs, hsc, Relation.ReflTransGen.refl⟩
    · exact Or.inl (cmFind_cmSet_ne m0 c hk)
  · intro q hq
    rw [List.mem_singleton.mp hq]; exact hsc
  · intro a ha hnot b _
    have hne : a ≠ s := fun e => hnot (by rw [e]; exact List.mem_singleton_self _)
    rw [cmFind_cmSet_ne m0 c hne] at ha
    exact absurd ha (hfresh a)

/-- Coloring one component keeps the invariant of the outer loop. -/
theorem ColorMap.OInv_after {g : Tiles} (h : g.WellFormed) (hf : g.FitsInt32) {K : List Int}
    (hK : ∀ k ∈ K, g.ValidId k) {m0 m2 : List (Int × Nat)} {s : Int} {c : Nat}
    (hO : ColorMap.OInv g K m0 c) (hB : ColorMap.BInv g K m0 s c m2 []) :
    ColorMap.OInv g K m2 (c + 1) := by
  have hc := hO.pos
  have hfresh : ∀ k, cmFind m0 k ≠ some c := fun k e => absurd (hO.below k c e) (lt_irrefl c)
  refine ⟨hB.keys, ?_, ?_, ?_, Nat.succ_ne_zero c⟩
  · intro k x hx
    rcases hB.frame k with e | ⟨-, e, -⟩
    · rw [e] at hx
      exact Nat.lt_succ_of_lt (hO.below k x hx)
    · rw [e] at hx
      rw [← Option.some.inj hx]
      exact Nat.lt_succ_self c
  · intro a x hax hx b hbK hadj
    have haK : a ∈ K := by rw [← hB.keys]; exact cmFind_some_key hax
    rcases hB.frame a with e | ⟨e0, e1, -⟩
    · rw [e] at hax
      have hb0 := hO.closed a x hax hx b hbK hadj
      rcases hB.frame b with d | ⟨d, -⟩
      · rw [d]; exact hb0
      · rw [hb0] at d
        exact absurd (Option.some.inj d) hx
    · have hxc : c = x := by rw [e1] at hax; exact Option.some.inj hax
      subst hxc
      have hbn : b ∈ ColorMap.neighbors g a := (ColorMap.mem_neighbors_iff h hf (hK a haK)).mpr hadj
      have hnz := hB.closed a e1 (List.not_mem_nil a) b hbn
      rcases hB.frame b with d | ⟨-, d, -⟩
      · obtain ⟨y, hy⟩ : ∃ y, cmFind m2 b = some y := cmFind_of_key (by rw [hB.keys]; exact hbK)
        have hy0 : y ≠ 0 := by
          intro e; rw [hy, e] at hnz; exact hnz rfl
        have hba : g.Adjacent b a := Adjacent_symm h hf (hK a haK) (hK b hbK) hadj
        have := hO.closed b y (by rw [← d]; exact hy) hy0 a haK hba
        rw [e0] at this
        exact absurd (Option.some.inj this).symm hy0
      · exact d
  · intro a b x hax hbx hx
    rcases hB.frame a with e | ⟨-, e1, e2⟩
    · rcases hB.frame b with d | ⟨-, d1, -⟩
      · rw [e] at hax
        rw [d] at hbx
        exact hO.conn a b x hax hbx hx
      · rw [e] at hax
        rw [d1] at hbx
        rw [← Option.some.inj hbx] at hax
        exact absurd hax (hfresh a)
    · rcases hB.frame b with d | ⟨-, -, d2⟩
      · rw [d] at hbx
        rw [e1] at hax
        rw [← Option.some.inj hax] at hbx
        exact absurd hbx (hfresh b)
      · exact Relation.ReflTransGen.trans (Connected_symm h hf hK e2) d2

/-- The outer loop of `ColorMap` returns a map that satisfies the invariant and in
which every key has a nonzero color. -/
theorem ColorMap.loop_correct {g : Tiles} (h : g.WellFormed) (hf : g.FitsInt32) {K : List Int}
    (hK : ∀ k ∈ K, g.ValidId k) :
    ∀ (ks : List Int) (m : List (Int × Nat)) (c : Nat), ColorMap.OInv g K m c →
      (∀ k ∈ ks, k ∈ K) → (∀ k ∈ K, k ∉ ks → ∃ x, cmFind m k = some x ∧ x ≠ 0) →
      ∃ m2 c2, ColorMap.loop g ks m c = some m2 ∧ ColorMap.OInv g K m2 c2 ∧
        ∀ k ∈ K, ∃ x, cmFind m2 k = some x ∧ x ≠ 0 := by
  intro ks
  induction ks with
  | nil =>
    intro m c hO _ hdone
    exact ⟨m, c, rfl, hO, fun k hk => hdone k hk (List.not_mem_nil k)⟩
  | cons k ks ih =>
    intro m c hO hks hdone
    have hkK : k ∈ K := hks k (List.mem_cons_self _ _)
    obtain ⟨x, hx⟩ : ∃ x, cmFind m k = some x := cmFind_of_key (by rw [hO.keys]; exact hkK)
    have hks2 : ∀ k2 ∈ ks, k2 ∈ K := fun k2 hk2 => hks k2 (List.mem_cons_of_mem _ hk2)
    by_cases hpos : x > 0
    · have e : ColorMap.loop g (k :: ks) m c = ColorMap.loop g ks m c := by
        simp only [ColorMap.loop, hx, Option.getD_some, hpos, if_true]
      rw [e]
      apply ih m c hO hks2
      intro k2 hk2 hnot
      by_cases hkk : k2 = k
      · rw [hkk]; exact ⟨x, hx, Nat.pos_iff_ne_zero.mp hpos⟩
      · exact hdone k2 hk2 (fun hm => by
          rcases List.mem_cons.mp hm with e2 | e2
          · exact hkk e2
          · exact hnot e2)
    · have hx0 : x = 0 := by omega
      subst hx0
      have hc := hO.pos
      have hfresh : ∀ k, cmFind m k ≠ some c :=
        fun k e => absurd (hO.below k c e) (lt_irrefl c)
      obtain ⟨m2, hm2⟩ := ColorMap.bfs_returns g hc (m.length + 1) (cmSet m k c) [k] (by
        have := cmZeros_le (cmSet m k c)
        rw [cmSet_length] at this
        simp only [List.length_singleton]
        omega)
      have hinit := ColorMap.BInv_init g hfresh hx
      rw [hO.keys] at hinit
      have hB := ColorMap.bfs_inv h hf hK hc hfresh _ _ _ _ hinit hm2
      have hO2 := ColorMap.OInv_after h hf hK hO hB
      have e : ColorMap.loop g (k :: ks) m c = ColorMap.loop g ks m2 (c + 1) := by
        simp only [ColorMap.loop, hx, Option.getD_some, gt_iff_lt, lt_self_iff_false, if_false,
          hm2]
      rw [e]
      apply ih m2 (c + 1) hO2 hks2
      intro k2 hk2 hnot
      by_cases hkk : k2 = k
      · rw [hkk]; exact ⟨c, hB.source, hc⟩
      · obtain ⟨y, hy, hy0⟩ := hdone k2 hk2 (fun hm => by
          rcases List.mem_cons.mp hm with e2 | e2
          · exact hkk e2
          · exact hnot e2)
        rcases hB.frame k2 with d | ⟨d, -⟩
        · exact ⟨y, by rw [d]; exact hy, hy0⟩
        · rw [hy] at d
          exact absurd (Option.some.inj d) hy0

/-- C10: for every connectivity map whose keys are valid tile ids and whose colors are
all `0`, `ColorMap` returns a map with the same keys in which two keys have the same
color if and only if they are connected by a path of keys in which each consecutive
pair is related by `LeftNeighbor`, `RightNeighbor`, `TopNeighbor` or
`BottomNeighbor`. -/
theorem ColorMap_components (g : Tiles) (h : g.WellFormed) (hf : g.FitsInt32)
    (m : List (Int × Nat)) (hn : (m.map Prod.fst).Nodup) (hv : ∀ e ∈ m, g.ValidId e.1)
    (hz : ∀ e ∈ m, e.2 = 0) :
    ∃ m2, g.ColorMap m = some m2 ∧ m2.map Prod.fst = m.map Prod.fst ∧
      ∀ a b ca cb, (a, ca) ∈ m2 → (b, cb) ∈ m2 →
        (ca = cb ↔ g.Connected (m.map Prod.fst) a b) := by
  have hK : ∀ k ∈ m.map Prod.fst, g.ValidId k := by
    intro k hk
    obtain ⟨e, he, rfl⟩ := List.mem_map.mp hk
    exact hv e he
  have hzero : ∀ k x, cmFind m k = some x → x = 0 := fun k x hx => hz (k, x) (cmFind_some_mem hx)
  have hO : ColorMap.OInv g (m.map Prod.fst) m 1 := by
    refine ⟨rfl, ?_, ?_, ?_, Nat.one_ne_zero⟩
    · intro k x hx
      rw [hzero k x hx]
      exact Nat.zero_lt_one
    · intro a x hx hx0
      exact absurd (hzero a x hx) hx0
    · intro a b x hx _ hx0
      exact absurd (hzero a x hx) hx0
  obtain ⟨m2, c2, hm2, hO2, hall⟩ := ColorMap.loop_correct h hf hK (m.map Prod.fst) m 1 hO
    (fun k hk => hk) (fun k hk hnot => absurd hk hnot)
  refine ⟨m2, hm2, hO2.keys, ?_⟩
  intro a b ca cb ha hb
  have hn2 : (m2.map Prod.fst).Nodup := by rw [hO2.keys]; exact hn
  have hfa : cmFind m2 a = some ca := cmFind_of_mem hn2 ha
  have hfb : cmFind m2 b = some cb := cmFind_of_mem hn2 hb
  have hca : ca ≠ 0 := by
    obtain ⟨x, hx, hx0⟩ := hall a (by rw [← hO2.keys]; exact cmFind_some_key hfa)
    rw [hfa] at hx
    rw [Option.some.inj hx]
    exact hx0
  constructor
  · intro e
    rw [← e] at hfb
    exact hO2.conn a b ca hfa hfb hca
  · intro hconn
    have hreach : ∀ v, g.Connected (m.map Prod.fst) a v → cmFind m2 v = some ca := by
      intro v hv
      unfold Connected at hv
      induction hv with
      | refl => exact hfa
      | tail _ huv ih => exact hO2.closed _ ca ih hca _ huv.2.1 huv.2.2
    have hb2 := hreach b hconn
    rw [hfb] at hb2
    exact (Option.some.inj hb2).symm

/-- C10 at the map with keys `0`, `3`, `1` of color `0` on the grid `(0, 0, 4, 4)` with
tile size `2`. -/
theorem ColorMap_components_witness :
    ∃ m2, grid2x2.ColorMap [(0, 0), (3, 0), (1, 0)] = some m2 ∧
      m2.map Prod.fst = [(0, 0), (3, 0), (1, 0)].map Prod.fst ∧
      ∀ a b ca cb, (a, ca) ∈ m2 → (b, cb) ∈ m2 →
        (ca = cb ↔ grid2x2.Connected ([(0, 0), (3, 0), (1, 0)].map Prod.fst) a b) :=
  ColorMap_components grid2x2 grid2x2_shape.1
    (by unfold FitsInt32; rw [grid2x2_shape.2.1, grid2x2_shape.2.2.1]; decide)
    [(0, 0), (3, 0), (1, 0)] (by decide)
    (by
      intro e he
      unfold ValidId
      rw [grid2x2_shape.2.2.2]
      simp only [List.mem_cons, List.mem_singleton, List.not_mem_nil, or_false] at he
      rcases he with rfl | rfl | rfl <;> decide)
    (by
      intro e he
      simp only [List.mem_cons, List.mem_singleton, List.not_mem_nil, or_false] at he
      rcases he with rfl | rfl | rfl <;> rfl)

/-- Connected keys have the same color once every component met so far is closed. -/
theorem ColorMap.OInv_connected {g : Tiles} {K : List Int} {m : List (Int × Nat)} {c : Nat}
    (hO : ColorMap.OInv g K m c) {a b : Int} {x : Nat} (ha : cmFind m a = some x) (hx : x ≠ 0)
    (hab : g.Connected K a b) : cmFind m b = some x := by
  unfold Connected at hab
  induction hab with
  | refl => exact ha
  | tail _ huv ih => exact hO.closed _ x ih hx _ huv.2.1 huv.2.2

/-- The outer loop of `ColorMap` keeps one representative key per color. -/
theorem ColorMap.loop_reps {g : Tiles} (h : g.WellFormed) (hf : g.FitsInt32) {K : List Int}
    (hK : ∀ k ∈ K, g.ValidId k) :
    ∀ (ks : List Int) (m : List (Int × Nat)) (c : Nat) (reps : List Int),
      ColorMap.OInv g K m c → (∀ k ∈ ks, k ∈ K) →
      (∀ k ∈ K, k ∉ ks → ∃ x, cmFind m k = some x ∧ x ≠ 0) → ColorMap.Reps m c reps →
      ∃ m2 c2 reps2, ColorMap.loop g ks m c = some m2 ∧ ColorMap.OInv g K m2 c2 ∧
        (∀ k ∈ K, ∃ x, cmFind m2 k = some x ∧ x ≠ 0) ∧ ColorMap.Reps m2 c2 reps2 := by
  intro ks
  induction ks with
  | nil =>
    intro m c reps hO _ hdone hR
    exact ⟨m, c, reps, rfl, hO, fun k hk => hdone k hk (List.not_mem_nil k), hR⟩
  | cons k ks ih =>
    intro m c reps hO hks hdone hR
    have hkK : k ∈ K := hks k (List.mem_cons_self _ _)
    obtain ⟨x, hx⟩ : ∃ x, cmFind m k = some x := cmFind_of_key (by rw [hO.keys]; exact hkK)
    have hks2 : ∀ k2 ∈ ks, k2 ∈ K := fun k2 hk2 => hks k2 (List.mem_cons_of_mem _ hk2)
    by_cases hpos : x > 0
    · have e : ColorMap.loop g (k :: ks) m c = ColorMap.loop g ks m c := by
        simp only [ColorMap.loop, hx, Option.getD_some, hpos, if_true]
      rw [e]
      apply ih m c reps hO hks2 _ hR
      intro k2 hk2 hnot
      by_cases hkk : k2 = k
      · rw [hkk]; exact ⟨x, hx, Nat.pos_iff_ne_zero.mp hpos⟩
      · exact hdone k2 hk2 (fun hm => by
          rcases List.mem_cons.mp hm with e2 | e2
          · exact hkk e2
          · exact hnot e2)
    · have hx0 : x = 0 := by omega
      subst hx0
      have hc := hO.pos
      have hfresh : ∀ k, cmFind m k ≠ some c :=
        fun k e => absurd (hO.below k c e) (lt_irrefl c)
      obtain ⟨m2, hm2⟩ := ColorMap.bfs_returns g hc (m.length + 1) (cmSet m k c) [k] (by
        have := cmZeros_le (cmSet m k c)
        rw [cmSet_length] at this
        simp only [List.length_singleton]
        omega)
      have hinit := ColorMap.BInv_init g hfresh hx
      rw [hO.keys] at hinit
      have hB := ColorMap.bfs_inv h hf hK hc hfresh _ _ _ _ hinit hm2
      have hO2 := ColorMap.OInv_after h hf hK hO hB
      have e : ColorMap.loop g (k :: ks) m c = ColorMap.loop g ks m2 (c + 1) := by
        simp only [ColorMap.loop, hx, Option.getD_some, gt_iff_lt, lt_self_iff_false, if_false,
          hm2]
      rw [e]
      have hkeep : ∀ k2 y, cmFind m k2 = some y → y ≠ 0 → cmFind m2 k2 = some y := by
        intro k2 y hy hy0
        rcases hB.frame k2 with d | ⟨d, -⟩
        · rw [d]; exact hy
        · rw [hy] at d
          exact absurd (Option.some.inj d) hy0
      have hR2 : ColorMap.Reps m2 (c + 1) (reps ++ [k]) := by
        obtain ⟨hlen, hcol⟩ := hR
        refine ⟨by simp [hlen], ?_⟩
        intro i r hir
        by_cases hi : i < reps.length
        · rw [List.getElem?_append_left hi] at hir
          exact hkeep r (i + 1) (hcol i r hir) (Nat.succ_ne_zero i)
        · rw [List.getElem?_append_right (by omega)] at hir
          have hi0 : i - reps.length = 0 := by
            by_contra hne
            rw [List.getElem?_eq_none (by simp; omega)] at hir
            exact Option.noConfusion hir
          rw [hi0] at hir
          simp only [List.getElem?_cons_zero, Option.some.injEq] at hir
          rw [← hir]
          have : i + 1 = c := by omega
          rw [this]
          exact hB.source
      apply ih m2 (c + 1) (reps ++ [k]) hO2 hks2 _ hR2
      intro k2 hk2 hnot
      by_cases hkk : k2 = k
      · rw [hkk]; exact ⟨c, hB.source, hc⟩
      · obtain ⟨y, hy, hy0⟩ := hdone k2 hk2 (fun hm => by
          rcases List.mem_cons.mp hm with e2 | e2
          · exact hkk e2
          · exact hnot e2)
        exact ⟨y, hkeep k2 y hy hy0, hy0⟩

/-- C11: for every connectivity map of valid tile ids whose colors are all `0`, after
`ColorMap` no entry has color `0` and the colors in the map are exactly `1, ..., k`,
where `k` is the number of connected components of the key set (the length of a list
holding one key of every component). -/
theorem ColorMap_numbering (g : Tiles) (h : g.WellFormed) (hf : g.FitsInt32)
    (m : List (Int × Nat)) (hn : (m.map Prod.fst).Nodup) (hv : ∀ e ∈ m, g.ValidId e.1)
    (hz : ∀ e ∈ m, e.2 = 0) :
    ∃ m2 reps, g.ColorMap m = some m2 ∧ (∀ e ∈ m2, e.2 ≠ 0) ∧
      g.ComponentReps (m.map Prod.fst) reps ∧
      ∀ c, (∃ e ∈ m2, e.2 = c) ↔ (1 ≤ c ∧ c ≤ reps.length) := by
  have hK : ∀ k ∈ m.map Prod.fst, g.ValidId k := by
    intro k hk
    obtain ⟨e, he, rfl⟩ := List.mem_map.mp hk
    exact hv e he
  have hzero : ∀ k x, cmFind m k = some x → x = 0 := fun k x hx => hz (k, x) (cmFind_some_mem hx)
  have hO : ColorMap.OInv g (m.map Prod.fst) m 1 := by
    refine ⟨rfl, ?_, ?_, ?_, Nat.one_ne_zero⟩
    · intro k x hx
      rw [hzero k x hx]
      exact Nat.zero_lt_one
    · intro a x hx hx0
      exact absurd (hzero a x hx) hx0
    · intro a b x hx _ hx0
      exact absurd (hzero a x hx) hx0
  have hR : ColorMap.Reps m 1 [] := ⟨rfl, fun i r hir => by simp at hir⟩
  obtain ⟨m2, c2, reps, hm2, hO2, hall, hlen, hcol⟩ :=
    ColorMap.loop_reps h hf hK (m.map Prod.fst) m 1 [] hO (fun k hk => hk)
      (fun k hk hnot => absurd hk hnot) hR
  have hn2 : (m2.map Prod.fst).Nodup := by rw [hO2.keys]; exact hn
  refine ⟨m2, reps, hm2, ?_, ⟨?_, ?_, ?_⟩, ?_⟩
  · intro e he
    have hf2 : cmFind m2 e.1 = some e.2 := cmFind_of_mem hn2 he
    obtain ⟨x, hx, hx0⟩ := hall e.1 (by rw [← hO2.keys]; exact cmFind_some_key hf2)
    rw [hf2] at hx
    rw [Option.some.inj hx]
    exact hx0
  · intro r hr
    obtain ⟨i, hi, rfl⟩ := List.getElem_of_mem hr
    rw [← hO2.keys]
    exact cmFind_some_key (hcol i _ (List.getElem?_eq_getElem hi))
  · rw [List.pairwise_iff_getElem]
    intro i j hi hj hij hconn
    have h1 := hcol i _ (List.getElem?_eq_getElem hi)
    have h2 := hcol j _ (List.getElem?_eq_getElem hj)
    have h3 := ColorMap.OInv_connected hO2 h1 (Nat.succ_ne_zero i) hconn
    rw [h2] at h3
    have := Option.some.inj h3
    omega
  · intro k hk
    obtain ⟨x, hx, hx0⟩ := hall k hk
    have hlt := hO2.below k x hx
    have hi : x - 1 < reps.length := by omega
    have h1 := hcol (x - 1) _ (List.getElem?_eq_getElem hi)
    have hx1 : x - 1 + 1 = x := by omega
    rw [hx1] at h1
    exact ⟨reps[x - 1], List.getElem_mem _, hO2.conn _ _ x h1 hx hx0⟩
  · intro c
    constructor
    · rintro ⟨e, he, rfl⟩
      have hf2 : cmFind m2 e.1 = some e.2 := cmFind_of_mem hn2 he
      obtain ⟨x, hx, hx0⟩ := hall e.1 (by rw [← hO2.keys]; exact cmFind_some_key hf2)
      rw [hf2] at hx
      have hlt := hO2.below e.1 e.2 hf2
      have := Option.some.inj hx
      omega
    · rintro ⟨h1, h2⟩
      have hi : c - 1 < reps.length := by omega
      have h3 := hcol (c - 1) _ (List.getElem?_eq_getElem hi)
      have hc1 : c - 1 + 1 = c := by omega
      rw [hc1] at h3
      exact ⟨(reps[c - 1], c), cmFind_some_mem h3, rfl⟩

/-- C11 at the map with keys `0`, `3`, `1` of color `0` on the grid `(0, 0, 4, 4)` with
tile size `2`. -/
theorem ColorMap_numbering_witness :
    ∃ m2 reps, grid2x2.ColorMap [(0, 0), (3, 0), (1, 0)] = some m2 ∧ (∀ e ∈ m2, e.2 ≠ 0) ∧
      grid2x2.ComponentReps ([(0, 0), (3, 0), (1, 0)].map Prod.fst) reps ∧
      ∀ c, (∃ e ∈ m2, e.2 = c) ↔ (1 ≤ c ∧ c ≤ reps.length) :=
  ColorMap_numbering grid2x2 grid2x2_shape.1
    (by unfold FitsInt32; rw [grid2x2_shape.2.1, grid2x2_shape.2.2.1]; decide)
    [(0, 0), (3, 0), (1, 0)] (by decide)
    (by
      intro e he
      unfold ValidId
      rw [grid2x2_shape.2.2.2]
      simp only [List.mem_cons, List.mem_singleton, List.not_mem_nil, or_false] at he
      rcases he with rfl | rfl | rfl <;> decide)
    (by
      intro e he
      simp only [List.mem_cons, List.mem_singleton, List.not_mem_nil, or_false] at he
      rcases he with rfl | rfl | rfl <;> rfl)

theorem ColorMap.Frame_refl (m : List (Int × Nat)) : ColorMap.Frame m m :=
  ⟨rfl, fun _ => Or.inl rfl⟩

theorem ColorMap.Frame_trans {a b c : List (Int × Nat)} (h1 : ColorMap.Frame a b)
    (h2 : ColorMap.Frame b c) : ColorMap.Frame a c := by
  refine ⟨h2.1.trans h1.1, ?_⟩
  intro k
  rcases h2.2 k with e | e
  · rcases h1.2 k with d | d
    · exact Or.inl (e.trans d)
    · exact Or.inr d
  · rcases h1.2 k with d | d
    · right; rw [← d]; exact e
    · exact Or.inr d

theorem cmFind_cmSet_none (m : List (Int × Nat)) {k : Int} (c : Nat)
    (h : cmFind m k = none) : cmFind (cmSet m k c) k = none := by
  induction m with
  | nil => rfl
  | cons e m ih =>
    unfold cmFind at h
    by_cases he : e.1 = k
    · rw [if_pos he] at h
      exact Option.noConfusion h
    · rw [if_neg he] at h
      unfold cmSet
      rw [if_neg he]
      unfold cmFind
      rw [if_neg he]
      exact ih h

theorem ColorMap.Frame_cmSet (m : List (Int × Nat)) (k : Int) (c : Nat)
    (h : ¬ (cmFind m k).getD 0 > 0) : ColorMap.Frame m (cmSet m k c) := by
  refine ⟨cmSet_keys _ _ _, ?_⟩
  intro k2
  by_cases hk : k2 = k
  · subst hk
    cases hf : cmFind m k2 with
    | none => left; exact cmFind_cmSet_none m c hf
    | some x =>
      right
      rw [hf] at h
      simp only [Option.getD_some, gt_iff_lt, not_lt, Nat.le_zero_eq] at h
      rw [h]
  · exact Or.inl (cmFind_cmSet_ne m c hk)

/-- The inner loop of `ColorMap` keeps the keys and changes entries of color `0` only. -/
theorem ColorMap.bfs_frame (g : Tiles) {c : Nat} (hc : c ≠ 0) :
    ∀ (fuel : Nat) (m : List (Int × Nat)) (Q : List Int) (m2 : List (Int × Nat)),
      ColorMap.bfs g c fuel m Q = some m2 → ColorMap.Frame m m2 := by
  intro fuel
  induction fuel with
  | zero =>
    intro m Q m2 he
    cases Q with
    | nil =>
      simp only [ColorMap.bfs, Option.some.injEq] at he
      rw [← he]; exact ColorMap.Frame_refl m
    | cons t rest => simp [ColorMap.bfs] at he
  | succ fuel ih =>
    intro m Q m2 he
    cases Q with
    | nil =>
      simp only [ColorMap.bfs, Option.some.injEq] at he
      rw [← he]; exact ColorMap.Frame_refl m
    | cons t rest =>
      rw [ColorMap.bfs_succ] at he
      obtain ⟨f1, f2, -⟩ := ColorMap.fold_facts hc (ColorMap.neighbors g t) (m, rest)
      refine ColorMap.Frame_trans ⟨f1, ?_⟩ (ih _ _ _ he)
      intro k
      rcases f2 k with e | ⟨e, -⟩
      · exact Or.inl e
      · exact Or.inr e

/-- The outer loop of `ColorMap` returns, keeps the keys and changes entries of color
`0` only. -/
theorem ColorMap.loop_frame (g : Tiles) :
    ∀ (ks : List Int) (m : List (Int × Nat)) (c : Nat), c ≠ 0 →
      ∃ m2, ColorMap.loop g ks m c = some m2 ∧ ColorMap.Frame m m2 := by
  intro ks
  induction ks with
  | nil =>
    intro m c _
    exact ⟨m, rfl, ColorMap.Frame_refl m⟩
  | cons k ks ih =>
    intro m c hc
    by_cases hpos : (cmFind m k).getD 0 > 0
    · have e : ColorMap.loop g (k :: ks) m c = ColorMap.loop g ks m c := by
        simp only [ColorMap.loop, hpos, if_true]
      rw [e]
      exact ih m c hc
    · obtain ⟨m1, hm1⟩ := ColorMap.bfs_returns g hc (m.length + 1) (cmSet m k c) [k] (by
        have := cmZeros_le (cmSet m k c)
        rw [cmSet_length] at this
        simp only [List.length_singleton]
        omega)
      have e : ColorMap.loop g (k :: ks) m c = ColorMap.loop g ks m1 (c + 1) := by
        simp only [ColorMap.loop, hpos, if_false, hm1]
      rw [e]
      obtain ⟨m2, hm2, hfr⟩ := ih m1 (c + 1) (Nat.succ_ne_zero c)
      exact ⟨m2, hm2, ColorMap.Frame_trans
        (ColorMap.Frame_trans (ColorMap.Frame_cmSet m k c hpos) (ColorMap.bfs_frame g hc _ _ _ _ hm1))
        hfr⟩

/-- C12: for every connectivity map, `ColorMap` returns a map with the same keys (none
added, none removed) in which every entry whose color was nonzero has kept its
color. -/
theorem ColorMap_frame (g : Tiles) (m : List (Int × Nat)) (hn : (m.map Prod.fst).Nodup) :
    ∃ m2, g.ColorMap m = some m2 ∧ m2.map Prod.fst = m.map Prod.fst ∧
      ∀ k x, (k, x) ∈ m → x ≠ 0 → (k, x) ∈ m2 := by
  obtain ⟨m2, hm2, hk, hfr⟩ := ColorMap.loop_frame g (m.map Prod.fst) m 1 Nat.one_ne_zero
  refine ⟨m2, hm2, hk, ?_⟩
  intro k x hkx hx
  have hf := cmFind_of_mem hn hkx
  rcases hfr k with e | e
  · rw [hf] at e
    exact cmFind_some_mem e
  · rw [hf] at e
    exact absurd (Option.some.inj e) hx

/-- C12 at a map on the grid `(0, 0, 4, 4)` with tile size `2` that holds a colored
entry, an entry of color `0` and a key that is no tile of the grid. -/
theorem ColorMap_frame_witness :
    ∃ m2, grid2x2.ColorMap [(0, 7), (1, 0), (9, 0)] = some m2 ∧
      m2.map Prod.fst = [(0, 7), (1, 0), (9, 0)].map Prod.fst ∧
      ∀ k x, (k, x) ∈ [((0 : Int), (7 : Nat)), (1, 0), (9, 0)] → x ≠ 0 → (k, x) ∈ m2 :=
  ColorMap_frame grid2x2 [(0, 7), (1, 0), (9, 0)] (by decide)

/-! ## Nearest-subdivision search -/

/-- C15, evaluated on the code: for every grid and every seed, the first call of the
producer returned by `ClosestFirst` throws, because the queue of the returned
producer is empty. -/
theorem ClosestFirst_first_call_throws (g : Tiles) (seed : Point2) :
    (g.ClosestFirst seed).queue = [] ∧
      ClosestFirst.call g (g.ClosestFirst seed) = Except.error "Subdivisions were exhausted" :=
  ⟨rfl, rfl⟩

/-- C17: a call of the producer fails with an error if and only if the queue of the
producer is empty when the call is made; otherwise it returns a triple. -/
theorem ClosestFirst_call_error_iff (g : Tiles) (p : Producer) :
    ((∃ e, ClosestFirst.call g p = Except.error e) ↔ p.queue = []) ∧
      ((∃ r, ClosestFirst.call g p = Except.ok r) ↔ p.queue ≠ []) := by
  unfold ClosestFirst.call
  cases hq : p.queue with
  | nil => simp
  | cons best queue => simp

/-! ## Polyline rasterizer -/

theorem grid2x2s2_shape : grid2x2s2.ncolumns = 2 ∧ grid2x2s2.nrows = 2 ∧
    grid2x2s2.tilebounds.Width = 4 ∧ grid2x2s2.tilebounds.Height = 4 := by
  have s1 : f32 4 = 4 := f32_float 2 1 (by norm_num) (by norm_num)
  have s2 : f32 2 = 2 := f32_float 1 1 (by norm_num) (by norm_num)
  refine ⟨by norm_num [grid2x2s2, ncolumns, s1, s2], by norm_num [grid2x2s2, nrows, s1, s2],
    by norm_num [grid2x2s2, AABB2.Width, s1], by norm_num [grid2x2s2, AABB2.Height, s1]⟩

/-- C14, evaluated on the code: on the grid `(0, 0, 4, 4)` with tile size `2` and 2
subdivisions per tile edge, the polyline from `(1/2, 1)` to `(5/2, 1)` has both vertices
inside the grid.  Whatever fuel of at least 5 iterations `bresenham_line` gets,
`Intersect` returns the subdivisions `2, 0, 1` of tile `0` and `0, 1` of tile `1`; the
last vertex falls in the subdivision cell `(2, 1)`, which `set_pixel` would record as
subdivision `2` of tile `1`, and that is not in the result. -/
theorem Intersect_misses_last_vertex :
    (∀ n, grid2x2s2.Intersect (n + 5) [⟨1 / 2, 1⟩, ⟨5 / 2, 1⟩] =
        some [(0, [2, 0, 1]), (1, [0, 1])]) ∧
      (Intersect.set_pixel grid2x2s2 [] 2 1).1 = [(1, [2])] := by
  obtain ⟨hc, hr, hw, hh⟩ := grid2x2s2_shape
  have hx : grid2x2s2.tilebounds.minx = 0 := rfl
  have hy : grid2x2s2.tilebounds.miny = 0 := rfl
  have hn : grid2x2s2.nsubdivisions = 2 := rfl
  have c1 : f32 (1 / 2) = 1 / 2 := f32_float (-1) 1 (by norm_num) (by norm_num)
  have c3 : f32 (1 / 8) = 1 / 8 := f32_float (-3) 1 (by norm_num) (by norm_num)
  have c4 : f32 2 = 2 := f32_float 1 1 (by norm_num) (by norm_num)
  have c5 : f32 (1 / 4) = 1 / 4 := f32_float (-2) 1 (by norm_num) (by norm_num)
  have c6 : f32 1 = 1 := f32_float 0 1 (by norm_num) (by norm_num)
  have c7 : f32 (5 / 2) = 5 / 2 := f32_float (-1) 5 (by norm_num) (by norm_num)
  have c8 : f32 (5 / 8) = 5 / 8 := f32_float (-3) 5 (by norm_num) (by norm_num)
  have c9 : f32 (5 / 4) = 5 / 4 := f32_float (-2) 5 (by norm_num) (by norm_num)
  have c10 : f32 (3 / 2) = 3 / 2 := f32_float (-1) 3 (by norm_num) (by norm_num)
  have c11 : f32 (-(1 / 2)) = -(1 / 2) := f32_float (-1) (-1) (by norm_num) (by norm_num)
  have c12 : f32 (-1) = -1 := f32_float 0 (-1) (by norm_num) (by norm_num)
  have c13 : f32 (-(3 / 2)) = -(3 / 2) := f32_float (-1) (-3) (by norm_num) (by norm_num)
  have c14 : f32 (-3) = -3 := f32_float 0 (-3) (by norm_num) (by norm_num)
  have c15 : f32 (7 / 2) = 7 / 2 := f32_float (-1) 7 (by norm_num) (by norm_num)
  have c16 : f32 3 = 3 := f32_float 0 3 (by norm_num) (by norm_num)
  have c17 : f32 (9 / 2) = 9 / 2 := f32_float (-1) 9 (by norm_num) (by norm_num)
  have k1 : grid2x2s2.SubdivisionX (1 / 2) = 1 / 2 := by
    simp only [SubdivisionX, hc, hw, hx, hn]
    norm_num [c1, c3, c4, c5]
  have k2 : grid2x2s2.SubdivisionY 1 = 1 := by
    simp only [SubdivisionY, hr, hh, hy, hn]
    norm_num [c1, c4, c5, c6]
  have k3 : grid2x2s2.SubdivisionX (5 / 2) = 5 / 2 := by
    simp only [SubdivisionX, hc, hw, hx, hn]
    norm_num [c4, c7, c8, c9]
  constructor
  · intro n
    simp only [Intersect, Intersect.loop, Intersect.segment, k1, k2, k3]
    norm_num [truncToInt, bresenham_line, bresenham_loop, Intersect.set_pixel, hc, hr, hn,
      imInsert, toU16, Int.tdiv, Int.tmod, f32_zero, c1, c4, c6, c7, c10, c11, c12, c13, c14,
      c15, c16, c17]
  · norm_num [Intersect.set_pixel, hc, hr, hn, imInsert, toU16, Int.tdiv, Int.tmod]

/-- On the row below a horizontal segment that runs along the line `y = 1`, the loop
of `bresenham_line` keeps stepping in `x` and never returns. -/
theorem bresenham_loop_horizontal :
    ∀ (fuel : Nat) (x : ℚ) (marked : List (Int × Int)),
      (bresenham_loop recordPixel (1 / 2) 1 (5 / 2) 1 1 (-1) 2 0 fuel x (1 / 2) false marked).2 =
        false := by
  have c11 : f32 (-(1 / 2)) = -(1 / 2) := f32_float (-1) (-1) (by norm_num) (by norm_num)
  have c12 : f32 (-1) = -1 := f32_float 0 (-1) (by norm_num) (by norm_num)
  have c13 : f32 (-(3 / 2)) = -(3 / 2) := f32_float (-1) (-3) (by norm_num) (by norm_num)
  have c14 : f32 (-3) = -3 := f32_float 0 (-3) (by norm_num) (by norm_num)
  intro fuel
  induction fuel with
  | zero =>
    intro x marked
    norm_num [bresenham_loop]
  | succ fuel ih =>
    intro x marked
    have h := ih (f32 (x + 1)) (marked ++ [(⌊f32 (x + 1)⌋, 0)])
    norm_num [bresenham_loop, recordPixel, f32_zero, c11, c12, c13, c14] at h ⊢
    exact h

/-- C19, evaluated on the code: for the endpoints `(1/2, 1)` and `(5/2, 1)` and a
callback that never reports a pixel off the grid, `bresenham_line` does not return,
whatever the number of iterations. -/
theorem bresenham_line_never_returns :
    ∀ fuel, (bresenham_line (1 / 2) 1 (5 / 2) 1 recordPixel fuel []).2 = false := by
  have c1 : f32 (1 / 2) = 1 / 2 := f32_float (-1) 1 (by norm_num) (by norm_num)
  have c4 : f32 2 = 2 := f32_float 1 1 (by norm_num) (by norm_num)
  have c6 : f32 1 = 1 := f32_float 0 1 (by norm_num) (by norm_num)
  have c10 : f32 (3 / 2) = 3 / 2 := f32_float (-1) 3 (by norm_num) (by norm_num)
  have c11 : f32 (-(1 / 2)) = -(1 / 2) := f32_float (-1) (-1) (by norm_num) (by norm_num)
  have c12 : f32 (-1) = -1 := f32_float 0 (-1) (by norm_num) (by norm_num)
  intro fuel
  cases fuel with
  | zero => norm_num [bresenham_line, bresenham_loop, f32_zero, c1, c4, c10]
  | succ fuel =>
    have h := bresenham_loop_horizontal fuel (1 / 2) [(0, 1), (0, 0)]
    norm_num [bresenham_line, bresenham_loop, recordPixel, f32_zero, c1, c4, c6, c10, c11,
      c12] at h ⊢
    exact h

/-! ## Line traversal -/

/-- C20, evaluated on the code: for the segment from `(1/2, 5)` to `(7/2, 1.4f)`, where
`1.4f = 11744051 / 2^23`, and a callback that never reports a pixel off the grid,
`bresenham_line` returns after 7 iterations and has marked the cells `(0,5)`, `(0,4)`,
`(1,4)`, `(1,3)`, `(2,3)`, `(2,2)`, `(3,2)`, `(3,1)`.  The segment passes through the
open square of the cell `(2, 1)` (at the parameter `t = 0.83333333`), which is not
marked: at the cell `(2, 2)` the computed deviations are `tx = 3.2999992` and
`ty = 3.3000002`, so the traversal steps in `x`, to `(3, 2)`; the exact deviations
there are `3.30000007` and `3.29999995`, for which the step is in `y`, to `(2, 1)`. -/
theorem bresenham_line_misses_crossed_cell :
    (∀ n, bresenham_line (1 / 2) 5 (7 / 2) (11744051 / 8388608) recordPixel (n + 7) [] =
        ([(0, 5), (0, 4), (1, 4), (1, 3), (2, 3), (2, 2), (3, 2), (3, 1)], true)) ∧
      (∃ t : ℚ, 0 ≤ t ∧ t ≤ 1 ∧
        (2 : ℚ) < 1 / 2 + t * (7 / 2 - 1 / 2) ∧ (1 / 2 : ℚ) + t * (7 / 2 - 1 / 2) < 3 ∧
        (1 : ℚ) < 5 + t * (11744051 / 8388608 - 5) ∧
        (5 : ℚ) + t * (11744051 / 8388608 - 5) < 2) ∧
      ((2, 1) : Int × Int) ∉
        [((0, 5) : Int × Int), (0, 4), (1, 4), (1, 3), (2, 3), (2, 2), (3, 2), (3, 1)] := by
  have d1 : f32 3 = 3 := f32_float 0 3 (by norm_num) (by norm_num)
  have d2 : f32 (1 / 2) = 1 / 2 := f32_float (-1) 1 (by norm_num) (by norm_num)
  have d3 : f32 (-(30198989 / 8388608)) = -(7549747 / 2097152) :=
    f32_eq_neg 1 (-15099494) (by norm_num) (by norm_num) (by norm_num [roundHalfEven])
      (by norm_num)
  have d4 : f32 (11 / 2) = 11 / 2 := f32_float (-1) 11 (by norm_num) (by norm_num)
  have d5 : f32 (3 / 2) = 3 / 2 := f32_float (-1) 3 (by norm_num) (by norm_num)
  have d6 : f32 1 = 1 := f32_float 0 1 (by norm_num) (by norm_num)
  have d7 : f32 (-(7549747 / 2097152)) = -(7549747 / 2097152) := f32_float (-21) (-7549747) (by norm_num) (by norm_num)
  have d8 : f32 (10695475 / 2097152) = 10695475 / 2097152 := f32_float (-21) 10695475 (by norm_num) (by norm_num)
  have d9 : f32 (9 / 2) = 9 / 2 := f32_float (-1) 9 (by norm_num) (by norm_num)
  have d10 : f32 (-(1 / 2)) = -(1 / 2) := f32_float (-1) (-1) (by norm_num) (by norm_num)
  have d11 : f32 (-(3 / 2)) = -(3 / 2) := f32_float (-1) (-3) (by norm_num) (by norm_num)
  have d12 : f32 (4404019 / 2097152) = 4404019 / 2097152 := f32_float (-21) 4404019 (by norm_num) (by norm_num)
  have d13 : f32 (7 / 2) = 7 / 2 := f32_float (-1) 7 (by norm_num) (by norm_num)
  have d14 : f32 (-(9 / 2)) = -(9 / 2) := f32_float (-1) (-9) (by norm_num) (by norm_num)
  have d15 : f32 (5 / 2) = 5 / 2 := f32_float (-1) 5 (by norm_num) (by norm_num)
  have d16 : f32 2 = 2 := f32_float 1 1 (by norm_num) (by norm_num)
  have d17 : f32 (-(7549747 / 1048576)) = -(7549747 / 1048576) := f32_float (-20) (-7549747) (by norm_num) (by norm_num)
  have d18 : f32 (5976883 / 1048576) = 5976883 / 1048576 := f32_float (-20) 5976883 (by norm_num) (by norm_num)
  have d19 : f32 (-(1887437 / 2097152)) = -(1887437 / 2097152) := f32_float (-21) (-1887437) (by norm_num) (by norm_num)
  have d20 : f32 (2831155 / 1048576) = 2831155 / 1048576 := f32_float (-20) 2831155 (by norm_num) (by norm_num)
  have d21 : f32 (-(5 / 2)) = -(5 / 2) := f32_float (-1) (-5) (by norm_num) (by norm_num)
  have d22 : f32 (-(15 / 2)) = -(15 / 2) := f32_float (-1) (-15) (by norm_num) (by norm_num)
  have d23 : f32 (-(8178893 / 2097152)) = -(8178893 / 2097152) := f32_float (-21) (-8178893) (by norm_num) (by norm_num)
  have d24 : f32 (-(22649241 / 2097152)) = -(2831155 / 262144) :=
    f32_eq_neg 3 (-11324620) (by norm_num) (by norm_num) (by norm_num [roundHalfEven])
      (by norm_num)
  have d25 : f32 (1651507 / 262144) = 1651507 / 262144 := f32_float (-18) 1651507 (by norm_num) (by norm_num)
  have d26 : f32 (-(314573 / 1048576)) = -(314573 / 1048576) := f32_float (-20) (-314573) (by norm_num) (by norm_num)
  have d27 : f32 (865075 / 262144) = 865075 / 262144 := f32_float (-18) 865075 (by norm_num) (by norm_num)
  have d28 : f32 (-(7 / 2)) = -(7 / 2) := f32_float (-1) (-7) (by norm_num) (by norm_num)
  have d29 : f32 (-(21 / 2)) = -(21 / 2) := f32_float (-1) (-21) (by norm_num) (by norm_num)
  have d30 : f32 (-(3460301 / 1048576)) = -(3460301 / 1048576) := f32_float (-20) (-3460301) (by norm_num) (by norm_num)
  have d31 : f32 4 = 4 := f32_float 2 1 (by norm_num) (by norm_num)
  have d32 : f32 (-(7549747 / 524288)) = -(7549747 / 524288) := f32_float (-19) (-7549747) (by norm_num) (by norm_num)
  have d33 : f32 (3617587 / 524288) = 3617587 / 524288 := f32_float (-19) 3617587 (by norm_num) (by norm_num)
  have d34 : f32 (78643 / 262144) = 78643 / 262144 := f32_float (-18) 78643 (by norm_num) (by norm_num)
  have step1 : ∀ (fuel : Nat) (marked : List (Int × Int)),
      bresenham_loop recordPixel (1 / 2) 5 (7 / 2) (11744051 / 8388608) 1 (-1) 3 (-(7549747 / 2097152)) (fuel + 1) (1 / 2) (11 / 2) false marked =
        bresenham_loop recordPixel (1 / 2) 5 (7 / 2) (11744051 / 8388608) 1 (-1) 3 (-(7549747 / 2097152)) fuel (1 / 2) (9 / 2) false
          (marked ++ [(0, 4)]) := by
    intro fuel marked
    rw [bresenham_loop]
    norm_num [recordPixel, abs_of_pos, abs_of_neg, f32_zero, d1, d2, d3, d4, d5, d6, d7, d8, d9, d10, d11, d12, d13, d14, d15, d16, d17, d18, d19, d20, d21, d22, d23, d24, d25, d26, d27, d28, d29, d30, d31, d32, d33, d34]
  have step2 : ∀ (fuel : Nat) (marked : List (Int × Int)),
      bresenham_loop recordPixel (1 / 2) 5 (7 / 2) (11744051 / 8388608) 1 (-1) 3 (-(7549747 / 2097152)) (fuel + 1) (1 / 2) (9 / 2) false marked =
        bresenham_loop recordPixel (1 / 2) 5 (7 / 2) (11744051 / 8388608) 1 (-1) 3 (-(7549747 / 2097152)) fuel (3 / 2) (9 / 2) false
          (marked ++ [(1, 4)]) := by
    intro fuel marked
    rw [bresenham_loop]
    norm_num [recordPixel, abs_of_pos, abs_of_neg, f32_zero, d1, d2, d3, d4, d5, d6, d7, d8, d9, d10, d11, d12, d13, d14, d15, d16, d17, d18, d19, d20, d21, d22, d23, d24, d25, d26, d27, d28, d29, d30, d31, d32, d33, d34]
  have step3 : ∀ (fuel : Nat) (marked : List (Int × Int)),
      bresenham_loop recordPixel (1 / 2) 5 (7 / 2) (11744051 / 8388608) 1 (-1) 3 (-(7549747 / 2097152)) (fuel + 1) (3 / 2) (9 / 2) false marked =
        bresenham_loop recordPixel (1 / 2) 5 (7 / 2) (11744051 / 8388608) 1 (-1) 3 (-(7549747 / 2097152)) fuel (3 / 2) (7 / 2) false
          (marked ++ [(1, 3)]) := by
    intro fuel marked
    rw [bresenham_loop]
    norm_num [recordPixel, abs_of_pos, abs_of_neg, f32_zero, d1, d2, d3, d4, d5, d6, d7, d8, d9, d10, d11, d12, d13, d14, d15, d16, d17, d18, d19, d20, d21, d22, d23, d24, d25, d26, d27, d28, d29, d30, d31, d32, d33, d34]
  have step4 : ∀ (fuel : Nat) (marked : List (Int × Int)),
      bresenham_loop recordPixel (1 / 2) 5 (7 / 2) (11744051 / 8388608) 1 (-1) 3 (-(7549747 / 2097152)) (fuel + 1) (3 / 2) (7 / 2) false marked =
        bresenham_loop recordPixel (1 / 2) 5 (7 / 2) (11744051 / 8388608) 1 (-1) 3 (-(7549747 / 2097152)) fuel (5 / 2) (7 / 2) false
          (marked ++ [(2, 3)]) := by
    intro fuel marked
    rw [bresenham_loop]
    norm_num [recordPixel, abs_of_pos, abs_of_neg, f32_zero, d1, d2, d3, d4, d5, d6, d7, d8, d9, d10, d11, d12, d13, d14, d15, d16, d17, d18, d19, d20, d21, d22, d23, d24, d25, d26, d27, d28, d29, d30, d31, d32, d33, d34]
  have step5 : ∀ (fuel : Nat) (marked : List (Int × Int)),
      bresenham_loop recordPixel (1 / 2) 5 (7 / 2) (11744051 / 8388608) 1 (-1) 3 (-(7549747 / 2097152)) (fuel + 1) (5 / 2) (7 / 2) false marked =
        bresenham_loop recordPixel (1 / 2) 5 (7 / 2) (11744051 / 8388608) 1 (-1) 3 (-(7549747 / 2097152)) fuel (5 / 2) (5 / 2) false
          (marked ++ [(2, 2)]) := by
    intro fuel marked
    rw [bresenham_loop]
    norm_num [recordPixel, abs_of_pos, abs_of_neg, f32_zero, d1, d2, d3, d4, d5, d6, d7, d8, d9, d10, d11, d12, d13, d14, d15, d16, d17, d18, d19, d20, d21, d22, d23, d24, d25, d26, d27, d28, d29, d30, d31, d32, d33, d34]
  have step6 : ∀ (fuel : Nat) (marked : List (Int × Int)),
      bresenham_loop recordPixel (1 / 2) 5 (7 / 2) (11744051 / 8388608) 1 (-1) 3 (-(7549747 / 2097152)) (fuel + 1) (5 / 2) (5 / 2) false marked =
        bresenham_loop recordPixel (1 / 2) 5 (7 / 2) (11744051 / 8388608) 1 (-1) 3 (-(7549747 / 2097152)) fuel (7 / 2) (5 / 2) false
          (marked ++ [(3, 2)]) := by
    intro fuel marked
    rw [bresenham_loop]
    norm_num [recordPixel, abs_of_pos, abs_of_neg, f32_zero, d1, d2, d3, d4, d5, d6, d7, d8, d9, d10, d11, d12, d13, d14, d15, d16, d17, d18, d19, d20, d21, d22, d23, d24, d25, d26, d27, d28, d29, d30, d31, d32, d33, d34]
  have step7 : ∀ (fuel : Nat) (marked : List (Int × Int)),
      bresenham_loop recordPixel (1 / 2) 5 (7 / 2) (11744051 / 8388608) 1 (-1) 3 (-(7549747 / 2097152)) (fuel + 1) (7 / 2) (5 / 2) false marked =
        bresenham_loop recordPixel (1 / 2) 5 (7 / 2) (11744051 / 8388608) 1 (-1) 3 (-(7549747 / 2097152)) fuel (7 / 2) (3 / 2) false
          (marked ++ [(3, 1)]) := by
    intro fuel marked
    rw [bresenham_loop]
    norm_num [recordPixel, abs_of_pos, abs_of_neg, f32_zero, d1, d2, d3, d4, d5, d6, d7, d8, d9, d10, d11, d12, d13, d14, d15, d16, d17, d18, d19, d20, d21, d22, d23, d24, d25, d26, d27, d28, d29, d30, d31, d32, d33, d34]
  have stop : ∀ (fuel : Nat) (marked : List (Int × Int)),
      bresenham_loop recordPixel (1 / 2) 5 (7 / 2) (11744051 / 8388608) 1 (-1) 3 (-(7549747 / 2097152)) fuel (7 / 2) (3 / 2) false marked = (marked, true) := by
    intro fuel marked
    cases fuel <;> norm_num [bresenham_loop]
  refine ⟨?_, ⟨83333333 / 100000000, by norm_num, by norm_num, by norm_num, by norm_num,
    by norm_num, by norm_num⟩, by decide⟩
  intro n
  simp only [bresenham_line]
  norm_num [recordPixel, f32_zero, d1, d2, d3, d4, d5, d6, d7, d8, d9, d10, d11, d12, d13, d14, d15, d16, d17, d18, d19, d20, d21, d22, d23, d24, d25, d26, d27, d28, d29, d30, d31, d32, d33, d34]
  rw [show n + 7 = (n + 6) + 1 from rfl, step1, show n + 6 = (n + 5) + 1 from rfl, step2,
    show n + 5 = (n + 4) + 1 from rfl, step3, show n + 4 = (n + 3) + 1 from rfl, step4,
    show n + 3 = (n + 2) + 1 from rfl, step5, show n + 2 = (n + 1) + 1 from rfl, step6,
    step7, stop]
  rfl

/-! ## Neighbour invariants -/

theorem TileCount_eq_of_pos {g : Tiles} (hc : 1 ≤ g.ncolumns) (hr : 1 ≤ g.nrows)
    (hf : g.FitsInt32) : g.TileCount = g.ncolumns * g.nrows := by
  unfold FitsInt32 at hf
  have := Int.mul_nonneg (by omega : 0 ≤ g.ncolumns) (by omega : 0 ≤ g.nrows)
  unfold TileCount
  exact toU32_of_range this (by unfold nrows at hf this; omega)

theorem TopNeighbor_rc_of_pos {g : Tiles} (hc : 1 ≤ g.ncolumns) (hr : 1 ≤ g.nrows)
    (hf : g.FitsInt32) {r c : Int} (hc0 : 0 ≤ c) (hc1 : c < g.ncolumns) (_hr0 : 0 ≤ r)
    (hr1 : r < g.nrows) :
    g.TopNeighbor (r * g.ncolumns + c) =
      (if r < g.nrows - 1 then r + 1 else r) * g.ncolumns + c := by
  have hcount := TileCount_eq_of_pos hc hr hf
  unfold FitsInt32 at hf
  have hle : 1 * g.ncolumns ≤ g.nrows * g.ncolumns :=
    Int.mul_le_mul_of_nonneg_right (by omega) (by omega)
  have hcomm : g.nrows * g.ncolumns = g.ncolumns * g.nrows := Int.mul_comm _ _
  have e1 : toU32 g.ncolumns = g.ncolumns := toU32_of_range (by omega) (by omega)
  have e2 : toI32 (toU32 (g.TileCount - toU32 g.ncolumns)) =
      g.ncolumns * g.nrows - g.ncolumns := by
    rw [e1, hcount, toU32_of_range (by omega) (by omega), toI32_of_range (by omega) (by omega)]
  unfold TopNeighbor
  rw [e2]
  by_cases hlt : r < g.nrows - 1
  · have h2 : (r + 2) * g.ncolumns ≤ g.nrows * g.ncolumns :=
      Int.mul_le_mul_of_nonneg_right (by omega) (by omega)
    have h3 : (r + 2) * g.ncolumns = r * g.ncolumns + 2 * g.ncolumns := by ring
    have h4 : (r + 1) * g.ncolumns = r * g.ncolumns + g.ncolumns := by ring
    rw [if_pos (by omega), if_pos hlt, h4]
    omega
  · have h2 : r = g.nrows - 1 := by omega
    have h3 : (g.nrows - 1) * g.ncolumns = g.nrows * g.ncolumns - g.ncolumns := by ring
    rw [if_neg hlt, if_neg (by rw [h2, h3]; omega)]

theorem GetRowColumn_rc {g : Tiles} {r c : Int} (hc0 : 0 ≤ c) (hc1 : c < g.ncolumns)
    (hr0 : 0 ≤ r) : g.GetRowColumn (r * g.ncolumns + c) = (r, c) := by
  obtain ⟨hd, hm⟩ := tdiv_row_col hc0 hc1 hr0
  unfold GetRowColumn
  rw [hd, hm]

/-- C21: on every grid with `ncolumns >= 1` and `nrows >= 1`, for every valid tile id
`t`: the four neighbours of `t` are valid tile ids; `LeftNeighbor(t)` and
`RightNeighbor(t)` are in the row of `t` and are inverse to each other;
`TopNeighbor(t)` and `BottomNeighbor(t)` are in the column of `t`. -/
theorem neighbors_invariants (g : Tiles) (hc : 1 ≤ g.ncolumns) (hr : 1 ≤ g.nrows)
    (hf : g.FitsInt32) (t : Int) (h0 : 0 ≤ t) (h1 : t < g.TileCount) :
    (g.ValidId (g.LeftNeighbor t) ∧ g.ValidId (g.RightNeighbor t) ∧
        g.ValidId (g.TopNeighbor t) ∧ g.ValidId (g.BottomNeighbor t)) ∧
      ((g.GetRowColumn (g.LeftNeighbor t)).1 = (g.GetRowColumn t).1 ∧
        (g.GetRowColumn (g.RightNeighbor t)).1 = (g.GetRowColumn t).1) ∧
      (g.LeftNeighbor (g.RightNeighbor t) = t ∧ g.RightNeighbor (g.LeftNeighbor t) = t) ∧
      ((g.GetRowColumn (g.TopNeighbor t)).2 = (g.GetRowColumn t).2 ∧
        (g.GetRowColumn (g.BottomNeighbor t)).2 = (g.GetRowColumn t).2) := by
  have hcount := TileCount_eq_of_pos hc hr hf
  rw [hcount] at h1
  obtain ⟨hr0, hr1, hc0, hc1⟩ := index_split (by omega : 0 < g.ncolumns) h0 h1
  have et : t = Int.tdiv t g.ncolumns * g.ncolumns + (t - Int.tdiv t g.ncolumns * g.ncolumns) := by
    ring
  generalize Int.tdiv t g.ncolumns = r at hr0 hr1 hc0 hc1 et
  generalize t - r * g.ncolumns = c at hc0 hc1 et
  subst et
  have hv : ∀ r2 c2 : Int, 0 ≤ c2 → c2 < g.ncolumns → 0 ≤ r2 → r2 < g.nrows →
      g.ValidId (r2 * g.ncolumns + c2) := by
    intro r2 c2 k1 k2 k3 k4
    unfold ValidId
    rw [hcount]
    exact rc_range k1 k2 k3 k4
  have eL := LeftNeighbor_rc hc0 hc1 hr0
  have eR := RightNeighbor_rc hc0 hc1 hr0
  have eT := TopNeighbor_rc_of_pos hc hr hf hc0 hc1 hr0 hr1
  have eB := BottomNeighbor_rc hc0 hc1 hr0
  have hLc : 0 ≤ (if c > 0 then c - 1 else g.ncolumns - 1) ∧
      (if c > 0 then c - 1 else g.ncolumns - 1) < g.ncolumns := by split <;> omega
  have hRc : 0 ≤ (if c < g.ncolumns - 1 then c + 1 else 0) ∧
      (if c < g.ncolumns - 1 then c + 1 else 0) < g.ncolumns := by split <;> omega
  have hTr : 0 ≤ (if r < g.nrows - 1 then r + 1 else r) ∧
      (if r < g.nrows - 1 then r + 1 else r) < g.nrows := by split <;> omega
  have hBr : 0 ≤ (if r = 0 then 0 else r - 1) ∧ (if r = 0 then 0 else r - 1) < g.nrows := by
    split <;> omega
  refine ⟨⟨?_, ?_, ?_, ?_⟩, ⟨?_, ?_⟩, ⟨?_, ?_⟩, ?_, ?_⟩
  · rw [eL]; exact hv _ _ hLc.1 hLc.2 hr0 hr1
  · rw [eR]; exact hv _ _ hRc.1 hRc.2 hr0 hr1
  · rw [eT]; exact hv _ _ hc0 hc1 hTr.1 hTr.2
  · rw [eB]; exact hv _ _ hc0 hc1 hBr.1 hBr.2
  · rw [eL, GetRowColumn_rc hLc.1 hLc.2 hr0, GetRowColumn_rc hc0 hc1 hr0]
  · rw [eR, GetRowColumn_rc hRc.1 hRc.2 hr0, GetRowColumn_rc hc0 hc1 hr0]
  · rw [eR, LeftNeighbor_rc hRc.1 hRc.2 hr0]
    split_ifs <;> omega
  · rw [eL, RightNeighbor_rc hLc.1 hLc.2 hr0]
    split_ifs <;> omega
  · rw [eT, GetRowColumn_rc hc0 hc1 hTr.1, GetRowColumn_rc hc0 hc1 hr0]
  · rw [eB, GetRowColumn_rc hc0 hc1 hBr.1, GetRowColumn_rc hc0 hc1 hr0]

/-- C21 at tile `1` of the grid `(0, 0, 4, 4)` with tile size `2`. -/
theorem neighbors_invariants_witness :
    (grid2x2.ValidId (grid2x2.LeftNeighbor 1) ∧ grid2x2.ValidId (grid2x2.RightNeighbor 1) ∧
        grid2x2.ValidId (grid2x2.TopNeighbor 1) ∧ grid2x2.ValidId (grid2x2.BottomNeighbor 1)) ∧
      ((grid2x2.GetRowColumn (grid2x2.LeftNeighbor 1)).1 = (grid2x2.GetRowColumn 1).1 ∧
        (grid2x2.GetRowColumn (grid2x2.RightNeighbor 1)).1 = (grid2x2.GetRowColumn 1).1) ∧
      (grid2x2.LeftNeighbor (grid2x2.RightNeighbor 1) = 1 ∧
        grid2x2.RightNeighbor (grid2x2.LeftNeighbor 1) = 1) ∧
      ((grid2x2.GetRowColumn (grid2x2.TopNeighbor 1)).2 = (grid2x2.GetRowColumn 1).2 ∧
        (grid2x2.GetRowColumn (grid2x2.BottomNeighbor 1)).2 = (grid2x2.GetRowColumn 1).2) :=
  neighbors_invariants grid2x2 (by rw [grid2x2_shape.2.1]; decide)
    (by rw [grid2x2_shape.2.2.1]; decide)
    (by unfold FitsInt32; rw [grid2x2_shape.2.1, grid2x2_shape.2.2.1]; decide) 1 (by decide)
    (by rw [grid2x2_shape.2.2.2]; decide)

end Tiles

end Valhalla
